import Mathlib

/-!
Verification development for the layered-rendering game engine:
a shallow embedding of `src/js/core/LayerManager.js` (the `LayerManager`
and `SceneManager` classes) and `src/js/scenes/ConfigurableScene.js`
(the declarative scene interpreter and its animation engine), together
with theorems about the layer compositor's ordering contract, the scene
state machine, and the per-entity animation semantics.

Modelling conventions:
- JS object identity of entities is modelled by natural-number references.
- JS numbers are modelled as rationals (the programs under scrutiny only
  add, subtract, multiply, divide and compare them).
- A JS object used as a string-keyed dictionary, and a JS `Map`, are
  modelled as insertion-ordered association lists.
- `Math.sin` is an external library function; it is passed as an opaque
  parameter `sinq : ℚ → ℚ` to the functions that use it.
- `console.warn` and calls into external collaborators (scene controller,
  audio player) are modelled as an appended event trace.
-/

namespace CapVerify

/-- JS `Map.set` / object property assignment on an insertion-ordered
association list: overwrite in place if the key is present, else append. -/
def mapSet {K V : Type} [BEq K] (m : List (K × V)) (k : K) (v : V) : List (K × V) :=
  if m.any (fun p => p.1 == k) then
    m.map (fun p => if p.1 == k then (p.1, v) else p)
  else
    m ++ [(k, v)]

/-- Update the value stored at a key (used where the JS code mutates an
existing array stored in an object, e.g. `layerEntities[name].push(e)`). -/
def updEntry {V : Type} (m : List (String × V)) (k : String) (f : V → V) :
    List (String × V) :=
  m.map (fun p => if p.1 == k then (p.1, f p.2) else p)

namespace LayerManager

/-- An entity reference (JS object identity). -/
abbrev Entity := Nat

/-- The fixed layer enumeration `this.LAYERS` of `LayerManager`, in
declaration (= `Object.keys`) order, with its numeric z-values. -/
def LAYERS : List (String × Nat) :=
  [("BG_FAR", 0), ("BG_NEAR", 1), ("VIDEO_IMAGE", 2), ("SHAPES", 3),
   ("SPRITES", 4), ("TEXT", 5), ("UI_BUTTONS", 6)]

/-- `Object.keys(this.LAYERS)`. -/
def layerNames : List String := LAYERS.map Prod.fst

/-- The mutable state of a `LayerManager`: `this.layerEntities`, a JS object
mapping layer names to arrays of entities. -/
structure LMState where
  layerEntities : List (String × List Entity)
deriving DecidableEq, Repr

/-- The state set up by the `LayerManager` constructor: one empty array per
recognized layer. -/
def initLM : LMState := ⟨layerNames.map (fun n => (n, []))⟩

/-- `this.layerEntities[name]` (reads `[]` where the constructor put it;
an absent key is never read by the guarded source code). -/
def lmLookup (lm : LMState) (name : String) : List Entity :=
  match lm.layerEntities.find? (fun p => p.1 == name) with
  | some p => p.2
  | none => []

/-- `this.LAYERS.hasOwnProperty(layerName)`. -/
def recognized (name : String) : Bool := LAYERS.any (fun p => p.1 == name)

/-- `LayerManager.addToLayer(entity, layerName)`: warn-and-return on an
unrecognized layer, and push unless the entity is already present
(`includes` = identity comparison). -/
def addToLayer (e : Entity) (name : String) (lm : LMState) : LMState :=
  if recognized name then
    if e ∈ lmLookup lm name then lm
    else ⟨updEntry lm.layerEntities name (fun l => l ++ [e])⟩
  else lm

/-- `LayerManager.removeFromLayer(entity, layerName)`: remove the first
occurrence, no-op if absent or the layer is unknown. -/
def removeFromLayer (e : Entity) (name : String) (lm : LMState) : LMState :=
  if recognized name then
    ⟨updEntry lm.layerEntities name (fun l => l.erase e)⟩
  else lm

/-- `LayerManager.clearLayer(layerName)`. -/
def clearLayer (name : String) (lm : LMState) : LMState :=
  if recognized name then ⟨mapSet lm.layerEntities name []⟩ else lm

/-- `LayerManager.clearAll()`: `Object.keys(this.LAYERS).forEach(layer =>
this.layerEntities[layer] = [])`. -/
def clearAll (lm : LMState) : LMState :=
  ⟨layerNames.foldl (fun m k => mapSet m k []) lm.layerEntities⟩

/-- The z-value of a layer name, `this.LAYERS[a]` (as used by the sort
comparator in `render`). -/
def layerValue (s : String) : Int :=
  match LAYERS.find? (fun p => p.1 == s) with
  | some p => (p.2 : Int)
  | none => 0

/-- Stable insertion used to model `Array.prototype.sort` with the
comparator `(a, b) => this.LAYERS[a] - this.LAYERS[b]`. -/
def insertSorted (s : String) : List String → List String
  | [] => [s]
  | t :: ts => if layerValue s < layerValue t then s :: t :: ts else t :: insertSorted s ts

/-- `Object.keys(this.LAYERS).sort((a, b) => LAYERS[a] - LAYERS[b])`
from `LayerManager.render`. -/
def sortedLayers : List String := layerNames.foldr insertSorted []

/-- `LayerManager.render(ctx)`: the sequence of entities whose `render`
method is invoked, in invocation order.  `hasRender e` models
`entity && typeof entity.render === 'function'`. -/
def renderVisits (hasRender : Entity → Bool) (lm : LMState) : List Entity :=
  sortedLayers.flatMap (fun L => (lmLookup lm L).filter hasRender)

/-- A sequence of `addToLayer` calls, applied left to right.  Each call is
a pair (entity, layerName). -/
def applyCalls (calls : List (Entity × String)) (lm : LMState) : LMState :=
  calls.foldl (fun lm c => addToLayer c.1 c.2 lm) lm

/-- The subsequence of entities a call sequence sends to one layer. -/
def callsFor (L : String) (calls : List (Entity × String)) : List Entity :=
  (calls.filter (fun c => c.2 == L)).map Prod.fst

/-- Append-unless-present, the per-call effect of `addToLayer` on one
layer's array. -/
def dedupPush (l : List Entity) (e : Entity) : List Entity :=
  if e ∈ l then l else l ++ [e]

/-- The contents a layer ends with after a call sequence, starting empty. -/
def perLayer (L : String) (calls : List (Entity × String)) : List Entity :=
  (callsFor L calls).foldl dedupPush []

/-- Well-formedness of a compositor state: its key set is exactly the
7-layer enumeration, in declaration order (true of every state the
constructor and the operations can produce). -/
def wfLM (lm : LMState) : Prop := lm.layerEntities.map Prod.fst = layerNames

/-! ### Basic lemmas about the compositor state -/

theorem updEntry_cons (p : String × List Entity) (rest : List (String × List Entity))
    (k : String) (f : List Entity → List Entity) :
    updEntry (p :: rest) k f =
      (if p.1 = k then (p.1, f p.2) else p) :: updEntry rest k f := by
  simp only [updEntry, List.map_cons]
  by_cases h : p.1 = k <;> simp [h]

theorem lmLookup_cons (p : String × List Entity) (rest : List (String × List Entity))
    (k : String) :
    lmLookup ⟨p :: rest⟩ k = if p.1 = k then p.2 else lmLookup ⟨rest⟩ k := by
  unfold lmLookup
  by_cases h : p.1 = k
  · rw [List.find?_cons_of_pos _ (by simpa using h)]
    simp [h]
  · rw [List.find?_cons_of_neg _ (by simpa using h)]
    simp [h]

theorem keys_updEntry (m : List (String × List Entity)) (k : String)
    (f : List Entity → List Entity) :
    (updEntry m k f).map Prod.fst = m.map Prod.fst := by
  induction m with
  | nil => rfl
  | cons p rest ih =>
    rw [updEntry_cons]
    by_cases h : p.1 = k <;> simp [h, ih]

theorem lookupL_updEntry_self (m : List (String × List Entity)) (k : String)
    (f : List Entity → List Entity) (hk : k ∈ m.map Prod.fst) :
    lmLookup ⟨updEntry m k f⟩ k = f (lmLookup ⟨m⟩ k) := by
  induction m with
  | nil => simp at hk
  | cons p rest ih =>
    rw [updEntry_cons, lmLookup_cons, lmLookup_cons]
    by_cases h : p.1 = k
    · simp [h]
    · have hk' : k ∈ rest.map Prod.fst := by
        simp only [List.map_cons, List.mem_cons] at hk
        rcases hk with hk | hk
        · exact absurd hk.symm h
        · exact hk
      simp [h, ih hk']

theorem lookupL_updEntry_ne (m : List (String × List Entity)) (k k' : String)
    (f : List Entity → List Entity) (h : k' ≠ k) :
    lmLookup ⟨updEntry m k f⟩ k' = lmLookup ⟨m⟩ k' := by
  induction m with
  | nil => rfl
  | cons p rest ih =>
    rw [updEntry_cons, lmLookup_cons, lmLookup_cons]
    by_cases hp : p.1 = k
    · have hkk' : ¬k = k' := fun hh => h hh.symm
      simp [hp, hkk', ih]
    · by_cases hp' : p.1 = k'
      · simp [hp, hp', h]
      · simp [hp, hp', h, ih]

theorem lookupL_all_nil (m : List (String × List Entity))
    (h : ∀ p ∈ m, p.2 = ([] : List Entity)) (k : String) : lmLookup ⟨m⟩ k = [] := by
  induction m with
  | nil => rfl
  | cons p rest ih =>
    rw [lmLookup_cons]
    by_cases hp : p.1 = k
    · simp [hp, h p (List.mem_cons_self _ _)]
    · simp only [hp, if_false]
      exact ih (fun q hq => h q (List.mem_cons_of_mem _ hq))

theorem recognized_iff (s : String) : recognized s = true ↔ s ∈ layerNames := by
  simp only [recognized, LAYERS, layerNames, List.any_eq_true, List.mem_map]
  constructor
  · rintro ⟨p, hp, hps⟩
    exact ⟨p, hp, by simpa using hps⟩
  · rintro ⟨p, hp, hps⟩
    exact ⟨p, hp, by simpa using hps⟩

theorem wf_initLM : wfLM initLM := by
  unfold wfLM
  decide

theorem lookup_initLM (L : String) : lmLookup initLM L = [] := by
  apply lookupL_all_nil
  intro p hp
  simp only [initLM, layerNames, LAYERS, List.map_map, List.mem_map] at hp
  rcases hp with ⟨q, _, rfl⟩
  rfl

theorem sortedLayers_eq : sortedLayers = layerNames := by decide

theorem wf_addToLayer (e : Entity) (L : String) (lm : LMState) (hwf : wfLM lm) :
    wfLM (addToLayer e L lm) := by
  unfold addToLayer
  split
  · split
    · exact hwf
    · simpa [wfLM, keys_updEntry] using hwf
  · exact hwf

theorem addToLayer_not_recognized (e : Entity) (L : String) (lm : LMState)
    (h : recognized L = false) : addToLayer e L lm = lm := by
  simp [addToLayer, h]

theorem lookup_addToLayer_self (e : Entity) (L : String) (lm : LMState)
    (hwf : wfLM lm) (hrec : recognized L = true) :
    lmLookup (addToLayer e L lm) L = dedupPush (lmLookup lm L) e := by
  unfold addToLayer dedupPush
  rw [hrec]
  simp only [if_true]
  split
  · simp [*]
  · obtain ⟨m⟩ := lm
    have hk : L ∈ m.map Prod.fst := by
      rw [hwf]
      exact (recognized_iff L).mp hrec
    simp [lookupL_updEntry_self m L _ hk, *]

theorem lookup_addToLayer_ne (e : Entity) (L L' : String) (lm : LMState)
    (h : L' ≠ L) : lmLookup (addToLayer e L lm) L' = lmLookup lm L' := by
  unfold addToLayer
  split
  · split
    · rfl
    · obtain ⟨m⟩ := lm
      exact lookupL_updEntry_ne m L L' _ h
  · rfl

theorem callsFor_cons (L : String) (e : Entity) (L' : String)
    (rest : List (Entity × String)) :
    callsFor L ((e, L') :: rest) =
      if L' = L then e :: callsFor L rest else callsFor L rest := by
  by_cases h : L' = L <;> simp [callsFor, h]

theorem applyCalls_lookup (calls : List (Entity × String)) :
    ∀ lm : LMState, wfLM lm → ∀ L ∈ layerNames,
      lmLookup (applyCalls calls lm) L =
        (callsFor L calls).foldl dedupPush (lmLookup lm L) := by
  induction calls with
  | nil => intro lm _ L _; rfl
  | cons c rest ih =>
    intro lm hwf L hL
    obtain ⟨e, L'⟩ := c
    have hstep : applyCalls ((e, L') :: rest) lm = applyCalls rest (addToLayer e L' lm) := rfl
    rw [hstep, callsFor_cons]
    by_cases h : L' = L
    · subst h
      have hrec : recognized L' = true := (recognized_iff L').mpr hL
      rw [ih _ (wf_addToLayer e L' lm hwf) L' hL,
        lookup_addToLayer_self e L' lm hwf hrec]
      simp
    · rw [ih _ (wf_addToLayer e L' lm hwf) L hL,
        lookup_addToLayer_ne e L' L lm (fun hh => h hh.symm)]
      simp [h]

theorem flatMap_congr_mem {α β : Type} (l : List α) (f g : α → List β)
    (h : ∀ a ∈ l, f a = g a) : l.flatMap f = l.flatMap g := by
  induction l with
  | nil => rfl
  | cons a rest ih =>
    simp only [List.flatMap_cons]
    rw [h a (List.mem_cons_self _ _), ih (fun b hb => h b (List.mem_cons_of_mem _ hb))]

theorem renderVisits_applyCalls (hasRender : Entity → Bool)
    (calls : List (Entity × String)) :
    renderVisits hasRender (applyCalls calls initLM) =
      layerNames.flatMap (fun L => (perLayer L calls).filter hasRender) := by
  unfold renderVisits
  rw [sortedLayers_eq]
  apply flatMap_congr_mem
  intro L hL
  rw [applyCalls_lookup calls initLM wf_initLM L hL, lookup_initLM]
  rfl

/-- C1: for every sequence of `addToLayer` calls over the 7 recognized
layers, `render` visits entities in the fixed layer-enumeration order
`BG_FAR, BG_NEAR, VIDEO_IMAGE, SHAPES, SPRITES, TEXT, UI_BUTTONS` (within a
layer, in insertion order with identity dedupe), and the visit order is
independent of how calls to different layers were interleaved: it equals the
layer-by-layer canonical form, and any two call sequences sending the same
per-layer subsequences produce the same `render` visit order. -/
theorem render_order_total_and_call_order_independent (hasRender : Entity → Bool)
    (calls : List (Entity × String)) :
    renderVisits hasRender (applyCalls calls initLM) =
      layerNames.flatMap (fun L => (perLayer L calls).filter hasRender) ∧
    ∀ calls₂ : List (Entity × String),
      (∀ L ∈ layerNames, callsFor L calls₂ = callsFor L calls) →
      renderVisits hasRender (applyCalls calls₂ initLM) =
        renderVisits hasRender (applyCalls calls initLM) := by
  refine ⟨renderVisits_applyCalls hasRender calls, ?_⟩
  intro calls₂ h
  rw [renderVisits_applyCalls hasRender calls, renderVisits_applyCalls hasRender calls₂]
  apply flatMap_congr_mem
  intro L hL
  unfold perLayer
  rw [h L hL]

/-- Witness for C1: two interleavings of the same per-layer calls render
identically. -/
theorem render_order_witness :
    (∀ L ∈ layerNames,
      callsFor L [(2, "BG_FAR"), (1, "TEXT"), (3, "SPRITES")] =
        callsFor L [(1, "TEXT"), (3, "SPRITES"), (2, "BG_FAR")]) ∧
    renderVisits (fun _ => true)
        (applyCalls [(2, "BG_FAR"), (1, "TEXT"), (3, "SPRITES")] initLM) =
      renderVisits (fun _ => true)
        (applyCalls [(1, "TEXT"), (3, "SPRITES"), (2, "BG_FAR")] initLM) :=
  ⟨by decide,
   (render_order_total_and_call_order_independent (fun _ => true)
      [(1, "TEXT"), (3, "SPRITES"), (2, "BG_FAR")]).2
      [(2, "BG_FAR"), (1, "TEXT"), (3, "SPRITES")] (by decide)⟩

theorem addToLayer_mem (e : Entity) (L : String) (lm : LMState)
    (hrec : recognized L = true) (hmem : e ∈ lmLookup lm L) :
    addToLayer e L lm = lm := by
  unfold addToLayer
  simp [hrec, hmem]

theorem count_flatMap_zero (l : List String) (g : String → List Entity) (e : Entity)
    (h : ∀ L ∈ l, (g L).count e = 0) : (l.flatMap g).count e = 0 := by
  induction l with
  | nil => rfl
  | cons a rest ih =>
    simp only [List.flatMap_cons, List.count_append]
    rw [h a (List.mem_cons_self _ _), ih (fun b hb => h b (List.mem_cons_of_mem _ hb))]

theorem count_flatMap_single (l : List String) (g : String → List Entity) (e : Entity)
    (L : String) (hL : L ∈ l) (hnd : l.Nodup)
    (hz : ∀ L' ∈ l, L' ≠ L → (g L').count e = 0) :
    (l.flatMap g).count e = (g L).count e := by
  induction l with
  | nil => simp at hL
  | cons a rest ih =>
    obtain ⟨hna, hndr⟩ := List.nodup_cons.mp hnd
    simp only [List.flatMap_cons, List.count_append]
    rcases List.mem_cons.mp hL with rfl | hL'
    · have hzr : ∀ L' ∈ rest, (g L').count e = 0 := by
        intro L' hL'
        exact hz L' (List.mem_cons_of_mem _ hL') (fun hh => hna (hh ▸ hL'))
      rw [count_flatMap_zero rest g e hzr]
      simp
    · have ha : a ≠ L := fun hh => hna (hh ▸ hL')
      rw [hz a (List.mem_cons_self _ _) ha,
        ih hL' hndr (fun L' hm hne => hz L' (List.mem_cons_of_mem _ hm) hne)]
      simp

/-- C2: adding the same entity (identity comparison) twice to the same
recognized layer of a compositor in which it does not yet occur leaves
exactly one occurrence of it in that layer's collection — the second call
is a no-op — so one `render` frame invokes that entity's render capability
exactly once. -/
theorem addToLayer_twice_single_render (lm : LMState) (e : Entity) (L : String)
    (hasRender : Entity → Bool)
    (hwf : wfLM lm) (hL : L ∈ layerNames)
    (habs : ∀ L' ∈ layerNames, e ∉ lmLookup lm L')
    (hr : hasRender e = true) :
    addToLayer e L (addToLayer e L lm) = addToLayer e L lm ∧
    (lmLookup (addToLayer e L (addToLayer e L lm)) L).count e = 1 ∧
    (renderVisits hasRender (addToLayer e L (addToLayer e L lm))).count e = 1 := by
  have hrec : recognized L = true := (recognized_iff L).mpr hL
  have h1 : lmLookup (addToLayer e L lm) L = lmLookup lm L ++ [e] := by
    rw [lookup_addToLayer_self e L lm hwf hrec]
    unfold dedupPush
    rw [if_neg (habs L hL)]
  have hmem : e ∈ lmLookup (addToLayer e L lm) L := by rw [h1]; simp
  have hidem : addToLayer e L (addToLayer e L lm) = addToLayer e L lm :=
    addToLayer_mem e L _ hrec hmem
  have hz : (lmLookup lm L).count e = 0 := List.count_eq_zero.mpr (habs L hL)
  refine ⟨hidem, ?_, ?_⟩
  · rw [hidem, h1]
    simp [List.count_append, hz]
  · rw [hidem]
    unfold renderVisits
    rw [sortedLayers_eq]
    rw [count_flatMap_single layerNames _ e L hL (by decide) ?side]
    case side =>
      intro L' hL' hne
      rw [lookup_addToLayer_ne e L L' lm hne]
      exact List.count_eq_zero.mpr
        (fun hm => habs L' hL' (List.mem_of_mem_filter hm))
    rw [h1, List.filter_append]
    have hzf : ((lmLookup lm L).filter hasRender).count e = 0 :=
      List.count_eq_zero.mpr (fun hm => habs L hL (List.mem_of_mem_filter hm))
    simp [List.count_append, hzf, hr]

/-- Witness for C2 at a concrete input: entity 5 added twice to SPRITES of
an empty compositor is rendered exactly once. -/
theorem addToLayer_twice_witness :
    (renderVisits (fun _ => true)
        (addToLayer 5 "SPRITES" (addToLayer 5 "SPRITES" initLM))).count 5 = 1 :=
  (addToLayer_twice_single_render initLM 5 "SPRITES" (fun _ => true)
    wf_initLM (by decide) (by decide) rfl).2.2

theorem any_key_iff (m : List (String × List Entity)) (k : String) :
    (m.any (fun p => p.1 == k)) = true ↔ k ∈ m.map Prod.fst := by
  simp [List.any_eq_true, List.mem_map, beq_iff_eq]

theorem mapSet_present (m : List (String × List Entity)) (k : String) (v : List Entity)
    (hk : k ∈ m.map Prod.fst) :
    mapSet m k v = updEntry m k (fun _ => v) := by
  unfold mapSet updEntry
  rw [if_pos ((any_key_iff m k).mpr hk)]

theorem foldl_updEntry_const (ks : List String) :
    ∀ m : List (String × List Entity),
      ks.foldl (fun m k => updEntry m k (fun _ => ([] : List Entity))) m =
        m.map (fun p => if p.1 ∈ ks then (p.1, ([] : List Entity)) else p) := by
  induction ks with
  | nil => intro m; simp
  | cons k rest ih =>
    intro m
    rw [List.foldl_cons, ih, updEntry, List.map_map]
    apply List.map_congr_left
    intro p _
    by_cases h1 : p.1 = k
    · simp [Function.comp, h1]
    · by_cases h2 : p.1 ∈ rest <;> simp [Function.comp, h1, h2]

theorem foldl_mapSet_eq_updEntry (ks : List String) :
    ∀ m : List (String × List Entity), (∀ k ∈ ks, k ∈ m.map Prod.fst) →
      ks.foldl (fun m k => mapSet m k []) m =
        ks.foldl (fun m k => updEntry m k (fun _ => ([] : List Entity))) m := by
  induction ks with
  | nil => intro m _; rfl
  | cons k rest ih =>
    intro m hall
    rw [List.foldl_cons, List.foldl_cons,
      mapSet_present m k [] (hall k (List.mem_cons_self _ _))]
    exact ih _ (fun k' hk' => by
      rw [keys_updEntry]
      exact hall k' (List.mem_cons_of_mem _ hk'))

/-- On a well-formed compositor state, `clearAll` yields exactly the
freshly-constructed empty state. -/
theorem clearAll_wf (lm : LMState) (hwf : wfLM lm) : clearAll lm = initLM := by
  obtain ⟨m⟩ := lm
  have hkeys : m.map Prod.fst = layerNames := hwf
  unfold clearAll initLM
  rw [foldl_mapSet_eq_updEntry layerNames m (fun k hk => by rw [hkeys]; exact hk),
    foldl_updEntry_const]
  have h1 : m.map (fun p => if p.1 ∈ layerNames then (p.1, ([] : List Entity)) else p) =
      m.map (fun p => (p.1, ([] : List Entity))) := by
    apply List.map_congr_left
    intro p hp
    have : p.1 ∈ layerNames := by
      rw [← hkeys]
      exact List.mem_map_of_mem Prod.fst hp
    simp [this]
  rw [h1]
  have h2 : m.map (fun p => (p.1, ([] : List Entity))) =
      (m.map Prod.fst).map (fun n => (n, ([] : List Entity))) := by
    rw [List.map_map]
    rfl
  rw [h2, hkeys]

end LayerManager

namespace SceneManager

open LayerManager

/-- The externally visible steps `SceneManager.changeScene` performs, in
order: invoke the current scene's exit hook, bind the engine onto the new
scene (`newScene.setEngine(this.engine)`), clear the layer manager, set the
new scene current, invoke the enter hook, invoke the populate hook. -/
inductive SMStep where
  | exitHook
  | bindEngine
  | clearAllStep
  | setCurrent
  | enterHook
  | populateHook
deriving DecidableEq, Repr

/-- A scene as `changeScene` sees it: an optional capability set
`{exit, enter, populateLayers}` (`typeof hook === 'function'` modelled by
the `has…` flags) whose hooks may transform the compositor state. -/
structure SMScene where
  hasExit : Bool
  exitEff : LMState → LMState
  hasEnter : Bool
  enterEff : LMState → LMState
  hasPopulate : Bool
  populateEff : LMState → LMState

/-- `SceneManager.changeScene(newScene)`: returns the new current scene,
the final compositor state, and the trace of performed steps, each paired
with the compositor state at the moment the step runs. -/
def changeScene (cur : Option SMScene) (lm : LMState) (newScene : Option SMScene) :
    Option SMScene × LMState × List (SMStep × LMState) :=
  -- (1) exit current scene if it exists and exposes an exit hook
  let p1 : LMState × List (SMStep × LMState) :=
    match cur with
    | some c => if c.hasExit then (c.exitEff lm, [(SMStep.exitHook, lm)]) else (lm, [])
    | none => (lm, [])
  -- (2) set engine reference on the new scene (guarded by `if (newScene)`)
  let t2 : List (SMStep × LMState) :=
    match newScene with
    | some _ => p1.2 ++ [(SMStep.bindEngine, p1.1)]
    | none => p1.2
  -- (3) clear the LayerManager
  let lm2 := clearAll p1.1
  let t3 := t2 ++ [(SMStep.clearAllStep, p1.1)]
  -- (4) set new scene as current
  let t4 := t3 ++ [(SMStep.setCurrent, lm2)]
  -- (5) enter hook
  let p5 : LMState × List (SMStep × LMState) :=
    match newScene with
    | some sc =>
      if sc.hasEnter then (sc.enterEff lm2, t4 ++ [(SMStep.enterHook, lm2)]) else (lm2, t4)
    | none => (lm2, t4)
  -- (6) populate hook
  let p6 : LMState × List (SMStep × LMState) :=
    match newScene with
    | some sc =>
      if sc.hasPopulate then (sc.populateEff p5.1, p5.2 ++ [(SMStep.populateHook, p5.1)])
      else (p5.1, p5.2)
    | none => (p5.1, p5.2)
  (newScene, p6.1, p6.2)

/-- C3: for every current scene and every new scene, `changeScene` performs,
in order: the current scene's exit hook (if present), binding the engine
onto the new scene, clearing every layer of the compositor to size 0,
setting the new scene current, the enter hook (if present), then the
populate hook (if present).  The compositor state at the set-current and
enter steps is exactly the empty state, and the state at the populate step
is determined by the new scene's enter hook applied to the empty state — in
particular it contains no entity of the previous scene's compositor
contents.  (Hooks of the previous scene are assumed to keep the compositor
well formed, as every compositor operation does.) -/
theorem changeScene_clears_before_populate (cur : Option SMScene) (lm : LMState)
    (s : SMScene) (hwf : wfLM lm)
    (hexit : ∀ c, cur = some c → ∀ x, wfLM x → wfLM (c.exitEff x)) :
    (changeScene cur lm (some s)).2.2.map Prod.fst =
        (match cur with
         | some c => if c.hasExit then [SMStep.exitHook] else []
         | none => []) ++
        [SMStep.bindEngine, SMStep.clearAllStep, SMStep.setCurrent] ++
        (if s.hasEnter then [SMStep.enterHook] else []) ++
        (if s.hasPopulate then [SMStep.populateHook] else []) ∧
    (∀ x, (SMStep.setCurrent, x) ∈ (changeScene cur lm (some s)).2.2 → x = initLM) ∧
    (∀ x, (SMStep.enterHook, x) ∈ (changeScene cur lm (some s)).2.2 → x = initLM) ∧
    (∀ x, (SMStep.populateHook, x) ∈ (changeScene cur lm (some s)).2.2 →
        x = if s.hasEnter then s.enterEff initLM else initLM) ∧
    (changeScene cur lm (some s)).1 = some s := by
  rcases cur with _ | c
  · have hclear : clearAll lm = initLM := clearAll_wf lm hwf
    by_cases hE : s.hasEnter <;> by_cases hP : s.hasPopulate <;>
      refine ⟨?_, ?_, ?_, ?_, ?_⟩ <;>
      simp [changeScene, hE, hP, hclear]
  · by_cases hX : c.hasExit
    · have hwf1 : wfLM (c.exitEff lm) := hexit c rfl lm hwf
      have hclear : clearAll (c.exitEff lm) = initLM := clearAll_wf _ hwf1
      by_cases hE : s.hasEnter <;> by_cases hP : s.hasPopulate <;>
        refine ⟨?_, ?_, ?_, ?_, ?_⟩ <;>
        simp [changeScene, hX, hE, hP, hclear]
    · have hclear : clearAll lm = initLM := clearAll_wf lm hwf
      by_cases hE : s.hasEnter <;> by_cases hP : s.hasPopulate <;>
        refine ⟨?_, ?_, ?_, ?_, ?_⟩ <;>
        simp [changeScene, hX, hE, hP, hclear]

/-- Witness for C3: a concrete scene switch with all hooks present performs
the six steps in the documented order. -/
theorem changeScene_order_witness :
    (changeScene (some ⟨true, id, true, id, true, id⟩) initLM
        (some ⟨true, id, true, id, true, id⟩)).2.2.map Prod.fst =
      [SMStep.exitHook, SMStep.bindEngine, SMStep.clearAllStep, SMStep.setCurrent,
       SMStep.enterHook, SMStep.populateHook] :=
  (changeScene_clears_before_populate (some ⟨true, id, true, id, true, id⟩) initLM
      ⟨true, id, true, id, true, id⟩ wf_initLM
      (fun c hc x hx => by cases hc; exact hx)).1

end SceneManager

namespace ConfigurableScene

open LayerManager

/-- JS `v || d` on an optional numeric config field (`0` is falsy). -/
def orq (v : Option ℚ) (d : ℚ) : ℚ :=
  match v with
  | some x => if x = 0 then d else x
  | none => d

/-- JS `v || d` on an optional string config field (the empty string is
falsy). -/
def orS (v : Option String) (d : String) : String :=
  match v with
  | some s => if s = "" then d else s
  | none => d

/-- JS truthiness of an optional string. -/
def truthyS : Option String → Bool
  | some s => s != ""
  | none => false

/-- A click-action descriptor, `config.onClick` / `_actionConfig`. -/
structure ActionConfig where
  action : String
  target : Option String
  sound : Option String
deriving DecidableEq, Repr

/-- A per-entity animation config. -/
structure AnimConfig where
  type : String
  duration : Option ℚ
  delay : Option ℚ
  easing : Option String
  direction : Option String
deriving DecidableEq, Repr

/-- An entity config.  Pure render-content fields that no modelled
operation reads (assetId, rotation, label text, font, colour, shape kind,
radius, fill, strokeWidth, textAlign) are omitted. -/
structure EntityConfig where
  type : String
  id : Option String
  x : Option ℚ
  y : Option ℚ
  width : Option ℚ
  height : Option ℚ
  alpha : Option ℚ
  scaleX : Option ℚ
  scaleY : Option ℚ
  visible : Option Bool
  onClick : Option ActionConfig
  animation : Option AnimConfig
deriving DecidableEq, Repr

/-- A state's transition rule. -/
structure TransitionCfg where
  type : String
  duration : ℚ
  nextState : Option String
  nextScene : Option String
deriving DecidableEq, Repr

/-- A named state of the scene configuration. -/
structure StateCfg where
  name : String
  clearLayers : Bool
  layers : List (String × List EntityConfig)
  transition : Option TransitionCfg
deriving DecidableEq, Repr

/-- Canvas dimensions, `this.canvasSize`. -/
structure CanvasSize where
  width : ℚ
  height : ℚ
deriving DecidableEq, Repr

/-- Externally observable actions of the interpreter: `console.warn`
messages, requests delegated to collaborators (scene controller, audio
player), the `custom` action's logging, and invocations of an entity's
`checkClick` capability. -/
inductive Event where
  | warn (msg : String)
  | switchSceneReq (target : String)
  | playSound (sound : String)
  | customAct
  | clickTest (e : Entity)
deriving DecidableEq, Repr

/-- The visual attributes of a constructed entity that the interpreter
reads or writes, plus its click capability.  Identity-carrying render
content (image, label, colour, font, shape kind) plays no role in any
modelled operation and is omitted.  `scaleX`/`scaleY` are `Option` because
text and shape render objects are created without these properties
(JS `undefined`), which the animation engine defaults with `|| 1`. -/
structure EntityAttrs where
  x : ℚ
  y : ℚ
  alpha : ℚ
  width : ℚ
  height : ℚ
  scaleX : Option ℚ
  scaleY : Option ℚ
  visible : Bool
  hasCheckClick : Bool
  action : Option ActionConfig
deriving DecidableEq, Repr

/-- `ConfigurableScene._createSprite`.  The `Sprite` class itself is not
under src/; its attribute defaults (opacity 1, visible, unit scale — see
the spec's entity-factory defaults) are modelled from the spec, and the
config overrides (`if (config.X !== undefined) sprite.X = config.X`) are
from the source. -/
def createSprite (cfg : EntityConfig) : EntityAttrs :=
  { x := orq cfg.x 0, y := orq cfg.y 0
    alpha := cfg.alpha.getD 1
    width := orq cfg.width 0, height := orq cfg.height 0
    scaleX := some (cfg.scaleX.getD 1), scaleY := some (cfg.scaleY.getD 1)
    visible := cfg.visible.getD true
    hasCheckClick := false, action := none }

/-- `ConfigurableScene._createButton`.  The `Button` class is not under
src/; modelled from the spec, a button carries a click capability (test a
point, invoke the associated action).  The stored action is the config's
`onClick` descriptor (absent ⇒ the button dispatches nothing). -/
def createButton (cfg : EntityConfig) : EntityAttrs :=
  { x := orq cfg.x 0, y := orq cfg.y 0
    alpha := cfg.alpha.getD 1
    width := orq cfg.width 200, height := orq cfg.height 80
    scaleX := none, scaleY := none
    visible := true
    hasCheckClick := true
    action := cfg.onClick }

/-- `ConfigurableScene._createText`: an inline render object with no
width/height/scale properties (JS `undefined`; width and height stand at 0
here and are never read for a text entity by any modelled operation). -/
def createText (cfg : EntityConfig) : EntityAttrs :=
  { x := orq cfg.x 0, y := orq cfg.y 0
    alpha := cfg.alpha.getD 1
    width := 0, height := 0
    scaleX := none, scaleY := none
    visible := cfg.visible.getD true
    hasCheckClick := false, action := none }

/-- `ConfigurableScene._createShape`: an inline render object. -/
def createShape (cfg : EntityConfig) : EntityAttrs :=
  { x := orq cfg.x 0, y := orq cfg.y 0
    alpha := cfg.alpha.getD 1
    width := orq cfg.width 100, height := orq cfg.height 100
    scaleX := none, scaleY := none
    visible := cfg.visible.getD true
    hasCheckClick := false, action := none }

/-- `ConfigurableScene._createEntity`: dispatch on `config.type`; an
unrecognized kind produces no entity (and warns, see `setupItems`). -/
def createEntity (cfg : EntityConfig) : Option EntityAttrs :=
  if cfg.type = "sprite" then some (createSprite cfg)
  else if cfg.type = "button" then some (createButton cfg)
  else if cfg.type = "text" then some (createText cfg)
  else if cfg.type = "shape" then some (createShape cfg)
  else none

/-- A running animation record, as built by
`ConfigurableScene._setupAnimation` (the `entity` field is the reference
the record is keyed by). -/
structure Anim where
  ref : Entity
  type : String
  duration : ℚ
  delay : ℚ
  easing : String
  direction : String
  elapsed : ℚ
  started : Bool
  completed : Bool
  initialAlpha : ℚ
  initialX : ℚ
  initialY : ℚ
  initialScaleX : ℚ
  initialScaleY : ℚ
deriving DecidableEq, Repr

/-- `ConfigurableScene._applyEasing`: the `linear` case and the `default`
case of the JS switch both return `t`. -/
def applyEasing (t : ℚ) (easing : String) : ℚ :=
  if easing = "easeIn" then t * t
  else if easing = "easeOut" then 1 - (1 - t) * (1 - t)
  else if easing = "easeInOut" then
    if t < 1 / 2 then 2 * t * t else 1 - (-2 * t + 2) ^ 2 / 2
  else t

/-- `ConfigurableScene._lerp(start, end, t)` (arguments renamed: `end` is a
reserved word). -/
def lerp (a b t : ℚ) : ℚ := a + (b - a) * t

/-- `ConfigurableScene._setSlideInStart`. -/
def setSlideInStart (canvas : CanvasSize) (attrs : EntityAttrs) (a : Anim) : EntityAttrs :=
  if a.direction = "top" then { attrs with y := -attrs.height - 100 }
  else if a.direction = "bottom" then { attrs with y := canvas.height + 100 }
  else if a.direction = "left" then { attrs with x := -attrs.width - 100 }
  else if a.direction = "right" then { attrs with x := canvas.width + 100 }
  else attrs

/-- `ConfigurableScene._setupAnimation`: build the animation record
(snapshotting the entity's pre-animation values, with `|| 1` on the
possibly-undefined scales), then force the entity into the effect's start
appearance. -/
def setupAnimation (canvas : CanvasSize) (attrs : EntityAttrs) (cfg : AnimConfig)
    (ref : Entity) : EntityAttrs × Anim :=
  let a : Anim :=
    { ref := ref
      type := cfg.type
      duration := orq cfg.duration 1
      delay := orq cfg.delay 0
      easing := orS cfg.easing "linear"
      direction := orS cfg.direction "top"
      elapsed := 0
      started := false
      completed := false
      initialAlpha := attrs.alpha
      initialX := attrs.x
      initialY := attrs.y
      initialScaleX := orq attrs.scaleX 1
      initialScaleY := orq attrs.scaleY 1 }
  let attrs1 :=
    if cfg.type = "fadeIn" then { attrs with alpha := 0 }
    else if cfg.type = "fadeOut" then attrs
    else if cfg.type = "slideIn" then setSlideInStart canvas attrs a
    else if cfg.type = "scale" then { attrs with scaleX := some 0, scaleY := some 0 }
    else attrs
  (attrs1, a)

/-- `ConfigurableScene._updateSlideIn` (the dead local `targetY` of the
source is omitted; the first vertical assignment is kept because the
second one reads the entity's already-modified `y`). -/
def updateSlideIn (attrs : EntityAttrs) (a : Anim) (progress : ℚ) : EntityAttrs :=
  if a.direction = "top" ∨ a.direction = "bottom" then
    let y1 := a.initialY + (a.initialY - attrs.y) * (1 - (1 - progress))
    { attrs with y := lerp y1 a.initialY progress }
  else if a.direction = "left" ∨ a.direction = "right" then
    { attrs with x := lerp attrs.x a.initialX progress }
  else attrs

/-- The body of the `for (const [entity, anim] of this.entityAnimations)`
loop in `ConfigurableScene._updateAnimations`, for one entry: skip if
completed, accumulate elapsed, honour the delay, compute clamped progress
and eased progress, apply the effect, and mark non-pulse animations
completed at progress ≥ 1.  `sinq` is the opaque `Math.sin`. -/
def stepEntry (sinq : ℚ → ℚ) (dt : ℚ) (attrs : EntityAttrs) (a : Anim) :
    EntityAttrs × Anim :=
  if a.completed then (attrs, a)
  else
    let elapsed := a.elapsed + dt
    let a1 : Anim := { a with elapsed := elapsed }
    if elapsed < a.delay then (attrs, a1)
    else
      let eff := elapsed - a.delay
      let progress := min (eff / a.duration) 1
      let eased := applyEasing progress a.easing
      let attrs1 :=
        if a.type = "fadeIn" then { attrs with alpha := eased * a.initialAlpha }
        else if a.type = "fadeOut" then { attrs with alpha := a.initialAlpha * (1 - eased) }
        else if a.type = "slideIn" then updateSlideIn attrs a eased
        else if a.type = "scale" then
          { attrs with scaleX := some (eased * a.initialScaleX),
                       scaleY := some (eased * a.initialScaleY) }
        else if a.type = "pulse" then
          let pulse := 1 + sinq (eff * 4) * (1 / 10)
          { attrs with scaleX := some (a.initialScaleX * pulse),
                       scaleY := some (a.initialScaleY * pulse) }
        else attrs
      let a2 := if 1 ≤ progress ∧ a.type ≠ "pulse" then { a1 with completed := true } else a1
      (attrs1, a2)

/-- The pointer state consumed from the input collaborator. -/
structure MouseState where
  x : ℚ
  y : ℚ
  pressed : Bool
deriving DecidableEq, Repr

/-- The mutable state of a `ConfigurableScene` instance.  Entities are
heap references (`nextRef` is the allocator); `entities` is the id-keyed
`Map`, `entityAnimations` the entity-keyed `Map`. -/
structure CSState where
  sceneName : String
  canvasSize : CanvasSize
  states : List StateCfg
  currentStateIndex : Nat
  currentStateName : Option String
  stateTimer : ℚ
  entities : List (String × Entity)
  entityAnimations : List (Entity × Anim)
  heap : Entity → EntityAttrs
  nextRef : Entity
  lm : LMState
  events : List Event

/-- Heap update at one entity reference. -/
def updH (h : Entity → EntityAttrs) (e : Entity) (a : EntityAttrs) :
    Entity → EntityAttrs :=
  fun e' => if e' = e then a else h e'

/-- One full pass of `ConfigurableScene._updateAnimations` over the
animation table (insertion order), threading the entity heap. -/
def animPass (sinq : ℚ → ℚ) (dt : ℚ) :
    (Entity → EntityAttrs) → List (Entity × Anim) →
      (Entity → EntityAttrs) × List (Entity × Anim)
  | h, [] => (h, [])
  | h, (e, a) :: rest =>
    let r := stepEntry sinq dt (h e) a
    let p := animPass sinq dt (updH h e r.1) rest
    (p.1, (e, r.2) :: p.2)

/-- `ConfigurableScene._updateAnimations(dt)`. -/
def updateAnimations (sinq : ℚ → ℚ) (dt : ℚ) (st : CSState) : CSState :=
  let p := animPass sinq dt st.heap st.entityAnimations
  { st with heap := p.1, entityAnimations := p.2 }

/-- Iterated animation ticks. -/
def animTicks (sinq : ℚ → ℚ) (dts : List ℚ) (st : CSState) : CSState :=
  dts.foldl (fun st dt => updateAnimations sinq dt st) st

/-- Iterated per-entry animation steps. -/
def runEntry (sinq : ℚ → ℚ) (dts : List ℚ) (p : EntityAttrs × Anim) :
    EntityAttrs × Anim :=
  dts.foldl (fun p dt => stepEntry sinq dt p.1 p.2) p

/-- The animation-setup statement of `_setupState`, at the scene level:
`this._setupAnimation(entity, entityConfig.animation)` followed by
`this.entityAnimations.set(entity, animation)`. -/
def setupAnimationSt (st : CSState) (ref : Entity) (cfg : AnimConfig) : CSState :=
  let r := setupAnimation st.canvasSize (st.heap ref) cfg ref
  { st with heap := updH st.heap ref r.1,
            entityAnimations := mapSet st.entityAnimations ref r.2 }

/-- The per-config body of `_setupState`'s entity loop, for a successfully
created entity: allocate it on the heap, `addToLayer`, track it by id when
one is given (JS truthiness), and attach its animation if declared. -/
def stepState (st : CSState) (layerName : String) (cfg : EntityConfig)
    (attrs : EntityAttrs) : CSState :=
  let st1 : CSState := { st with
    nextRef := st.nextRef + 1
    heap := updH st.heap st.nextRef attrs
    lm := addToLayer st.nextRef layerName st.lm
    entities :=
      if truthyS cfg.id then mapSet st.entities (cfg.id.getD "") st.nextRef
      else st.entities }
  match cfg.animation with
  | some ac => setupAnimationSt st1 st.nextRef ac
  | none => st1

/-- The nested entity-creation loops of `ConfigurableScene._setupState`,
flattened over (layerName, entityConfig) pairs in iteration order: create
the entity (warn on an unknown kind), then run the per-entity body.  Also
returns the list of (reference, config) creations. -/
def setupItems (st : CSState) : List (String × EntityConfig) →
    CSState × List (Entity × EntityConfig)
  | [] => (st, [])
  | (layerName, cfg) :: rest =>
    match createEntity cfg with
    | none =>
      setupItems
        { st with events := st.events ++ [Event.warn ("Unknown entity type: " ++ cfg.type)] }
        rest
    | some attrs =>
      let r := setupItems (stepState st layerName cfg attrs) rest
      (r.1, (st.nextRef, cfg) :: r.2)

/-- `ConfigurableScene._setupState(state)`: optionally clear all layers and
drop all tracked entities/animations, then process the state's layer map.
(The source's `!state.layers` and `!Array.isArray(entities)` guards are
vacuous in the typed model.) -/
def setupState (st : CSState) (state : StateCfg) :
    CSState × List (Entity × EntityConfig) :=
  let st0 :=
    if state.clearLayers then
      { st with lm := clearAll st.lm, entities := [], entityAnimations := [] }
    else st
  setupItems st0 (state.layers.flatMap (fun p => p.2.map (fun cfg => (p.1, cfg))))

/-- `ConfigurableScene._switchToState(stateName)`: look the state up by
name; warn and change nothing if absent; otherwise set it current, reset
the state timer and re-run state setup. -/
def switchToState (stateName : String) (st : CSState) : CSState :=
  match st.states.findIdx? (fun s => s.name == stateName) with
  | none => { st with events := st.events ++ [Event.warn ("State not found: " ++ stateName)] }
  | some i =>
    let st1 := { st with
      currentStateIndex := i
      currentStateName := some stateName
      stateTimer := 0 }
    match st1.states.get? i with
    | some sc => (setupState st1 sc).1
    | none => st1

/-- `ConfigurableScene._handleButtonAction(action)` (the audio manager is
modelled as present; `custom` only logs). -/
def handleButtonAction (action : ActionConfig) (st : CSState) : CSState :=
  if action.action = "switchScene" then
    if truthyS action.target then
      { st with events := st.events ++ [Event.switchSceneReq (action.target.getD "")] }
    else st
  else if action.action = "switchState" then
    if truthyS action.target then switchToState (action.target.getD "") st else st
  else if action.action = "playSound" then
    if truthyS action.sound then
      { st with events := st.events ++ [Event.playSound (action.sound.getD "")] }
    else st
  else if action.action = "custom" then
    { st with events := st.events ++ [Event.customAct] }
  else st

/-- Modelled from the spec: `Button.checkClick(x, y)` (the `Button` class
is not under src/) tests the pointer against the button's rectangle and,
on a hit, invokes the stored click action. -/
def checkClickHit (attrs : EntityAttrs) (px py : ℚ) : Bool :=
  decide (attrs.x ≤ px) && decide (px ≤ attrs.x + attrs.width) &&
  decide (attrs.y ≤ py) && decide (py ≤ attrs.y + attrs.height)

/-- The iteration of `ConfigurableScene._handleButtonClicks` over the
id-keyed entity map: for each tracked entity exposing `checkClick`, the
capability is invoked (recorded as a `clickTest` event) and, on a hit, the
entity's stored action is dispatched. -/
def clicksPass (px py : ℚ) : CSState → List (String × Entity) → CSState
  | st, [] => st
  | st, (_, e) :: rest =>
    let attrs := st.heap e
    let st1 :=
      if attrs.hasCheckClick then
        let st0 := { st with events := st.events ++ [Event.clickTest e] }
        if checkClickHit attrs px py then
          match attrs.action with
          | some a => handleButtonAction a st0
          | none => st0
        else st0
      else st
    clicksPass px py st1 rest

/-- `ConfigurableScene._handleButtonClicks()`.  (The JS `Map` iterator is
live; the model iterates the entry list as of call time, which agrees with
it whenever dispatched actions do not mutate the map mid-iteration.) -/
def handleButtonClicks (px py : ℚ) (st : CSState) : CSState :=
  clicksPass px py st st.entities

/-- `ConfigurableScene._handleTransition(transition)`: a `nextScene` is
delegated to the scene controller (`this.switchScene`, recorded as an
event); otherwise a `nextState` is switched to in place. -/
def handleTransition (tr : TransitionCfg) (st : CSState) : CSState :=
  if truthyS tr.nextScene then
    { st with events := st.events ++ [Event.switchSceneReq (tr.nextScene.getD "")] }
  else if truthyS tr.nextState then switchToState (tr.nextState.getD "") st
  else st

/-- `ConfigurableScene.update(dt)`: no-op without states or with an
out-of-range current index; otherwise capture the current state, advance
the state timer, advance animations, dispatch clicks on a pressed pointer,
and evaluate the captured state's timer transition against the (possibly
click-reset) state timer. -/
def update (sinq : ℚ → ℚ) (dt : ℚ) (mouse : MouseState) (st : CSState) : CSState :=
  if st.states.isEmpty then st
  else
    match st.states.get? st.currentStateIndex with
    | none => st
    | some currentState =>
      let st1 := { st with stateTimer := st.stateTimer + dt }
      let st2 := updateAnimations sinq dt st1
      let st3 := if mouse.pressed then handleButtonClicks mouse.x mouse.y st2 else st2
      match currentState.transition with
      | some tr =>
        if tr.type == "timer" then
          if tr.duration ≤ st3.stateTimer then handleTransition tr st3 else st3
        else st3
      | none => st3

/-- JS `Map.get` on the entity-keyed animation table. -/
def lookupAnim (m : List (Entity × Anim)) (e : Entity) : Option Anim :=
  (m.find? (fun p => p.1 == e)).map Prod.snd

/-! ### Pointwise behaviour of the animation pass

Each entry of the animation table holds a distinct entity reference, so one
`_updateAnimations` pass acts on every (entity, animation) entry exactly as
the loop body `stepEntry` does, and passes compose. -/

theorem lookupAnim_cons (p : Entity × Anim) (rest : List (Entity × Anim)) (e : Entity) :
    lookupAnim (p :: rest) e = if p.1 = e then some p.2 else lookupAnim rest e := by
  unfold lookupAnim
  by_cases h : p.1 = e
  · rw [List.find?_cons_of_pos _ (by simpa using h)]
    simp [h]
  · rw [List.find?_cons_of_neg _ (by simpa using h)]
    simp [h]

theorem updH_ne (h : Entity → EntityAttrs) (e0 e : Entity) (v : EntityAttrs)
    (hne : e ≠ e0) : updH h e0 v e = h e := by
  simp [updH, hne]

theorem animPass_heap_notmem (sinq : ℚ → ℚ) (dt : ℚ) :
    ∀ (l : List (Entity × Anim)) (h : Entity → EntityAttrs) (e : Entity),
      e ∉ l.map Prod.fst → (animPass sinq dt h l).1 e = h e := by
  intro l
  induction l with
  | nil => intro h e _; rfl
  | cons p rest ih =>
    intro h e hne
    obtain ⟨e0, a0⟩ := p
    simp only [List.map_cons, List.mem_cons, not_or] at hne
    obtain ⟨hne1, hne2⟩ := hne
    simp only [animPass]
    rw [ih _ e hne2, updH_ne _ _ _ _ hne1]

theorem animPass_keys (sinq : ℚ → ℚ) (dt : ℚ) :
    ∀ (l : List (Entity × Anim)) (h : Entity → EntityAttrs),
      (animPass sinq dt h l).2.map Prod.fst = l.map Prod.fst := by
  intro l
  induction l with
  | nil => intro h; rfl
  | cons p rest ih =>
    intro h
    obtain ⟨e0, a0⟩ := p
    simp only [animPass, List.map_cons]
    rw [ih]

theorem animPass_pointwise (sinq : ℚ → ℚ) (dt : ℚ) :
    ∀ (l : List (Entity × Anim)) (h : Entity → EntityAttrs) (e : Entity) (a : Anim),
      (l.map Prod.fst).Nodup → lookupAnim l e = some a →
      lookupAnim (animPass sinq dt h l).2 e = some (stepEntry sinq dt (h e) a).2 ∧
      (animPass sinq dt h l).1 e = (stepEntry sinq dt (h e) a).1 := by
  intro l
  induction l with
  | nil => intro h e a _ hla; simp [lookupAnim] at hla
  | cons p rest ih =>
    intro h e a hnd hla
    obtain ⟨e0, a0⟩ := p
    simp only [List.map_cons, List.nodup_cons] at hnd
    obtain ⟨hne0, hndr⟩ := hnd
    rw [lookupAnim_cons] at hla
    simp only [animPass]
    by_cases he : e0 = e
    · subst he
      rw [if_pos rfl] at hla
      obtain rfl : a0 = a := by injection hla
      refine ⟨?_, ?_⟩
      · rw [lookupAnim_cons, if_pos rfl]
      · rw [animPass_heap_notmem sinq dt rest _ e0 hne0]
        simp [updH]
    · rw [if_neg he] at hla
      have hupd : updH h e0 (stepEntry sinq dt (h e0) a0).1 e = h e :=
        updH_ne _ _ _ _ (fun hh => he hh.symm)
      have hrec := ih (updH h e0 (stepEntry sinq dt (h e0) a0).1) e a hndr hla
      rw [hupd] at hrec
      refine ⟨?_, hrec.2⟩
      rw [lookupAnim_cons, if_neg he]
      exact hrec.1

theorem animTicks_pointwise (sinq : ℚ → ℚ) (dts : List ℚ) :
    ∀ (st : CSState) (e : Entity) (a : Anim),
      (st.entityAnimations.map Prod.fst).Nodup →
      lookupAnim st.entityAnimations e = some a →
      lookupAnim (animTicks sinq dts st).entityAnimations e
          = some (runEntry sinq dts (st.heap e, a)).2 ∧
      (animTicks sinq dts st).heap e = (runEntry sinq dts (st.heap e, a)).1 := by
  induction dts with
  | nil =>
    intro st e a _ hla
    exact ⟨hla, rfl⟩
  | cons dt rest ih =>
    intro st e a hnd hla
    have hp := animPass_pointwise sinq dt st.entityAnimations st.heap e a hnd hla
    have hkeys : (updateAnimations sinq dt st).entityAnimations.map Prod.fst
        = st.entityAnimations.map Prod.fst :=
      animPass_keys sinq dt st.entityAnimations st.heap
    have hnd' : ((updateAnimations sinq dt st).entityAnimations.map Prod.fst).Nodup := by
      rw [hkeys]; exact hnd
    have hrec := ih (updateAnimations sinq dt st) e (stepEntry sinq dt (st.heap e) a).2
      hnd' hp.1
    have hhe : (updateAnimations sinq dt st).heap e = (stepEntry sinq dt (st.heap e) a).1 :=
      hp.2
    rw [hhe] at hrec
    exact hrec

theorem stepEntry_completed (sinq : ℚ → ℚ) (dt : ℚ) (attrs : EntityAttrs) (a : Anim)
    (h : a.completed = true) : stepEntry sinq dt attrs a = (attrs, a) := by
  unfold stepEntry
  rw [if_pos h]

theorem runEntry_completed (sinq : ℚ → ℚ) (dts : List ℚ) :
    ∀ p : EntityAttrs × Anim, p.2.completed = true → runEntry sinq dts p = p := by
  induction dts with
  | nil => intro p _; rfl
  | cons dt rest ih =>
    intro p hc
    have h1 : runEntry sinq (dt :: rest) p = runEntry sinq rest (stepEntry sinq dt p.1 p.2) :=
      rfl
    rw [h1, stepEntry_completed sinq dt p.1 p.2 hc]
    exact ih p hc

theorem applyEasing_linear (t : ℚ) : applyEasing t "linear" = t := by
  unfold applyEasing
  rw [if_neg (by decide), if_neg (by decide), if_neg (by decide)]

theorem applyEasing_one (e : String) : applyEasing 1 e = 1 := by
  unfold applyEasing
  split_ifs with h1 h2 h3 h4
  · norm_num
  · norm_num
  · exfalso; norm_num at h4
  · norm_num
  · rfl

/-! ### C5: fadeIn with duration 1, delay 0, linear easing -/

/-- The animation config of C5's scenario. -/
def fadeCfg : AnimConfig :=
  { type := "fadeIn", duration := some 1, delay := some 0, easing := some "linear",
    direction := none }

theorem setupAnimation_fadeIn (canvas : CanvasSize) (attrs : EntityAttrs) (ref : Entity) :
    setupAnimation canvas attrs fadeCfg ref =
      ({ attrs with alpha := 0 },
       { ref := ref, type := "fadeIn", duration := 1, delay := 0, easing := "linear",
         direction := "top", elapsed := 0, started := false, completed := false,
         initialAlpha := attrs.alpha, initialX := attrs.x, initialY := attrs.y,
         initialScaleX := orq attrs.scaleX 1, initialScaleY := orq attrs.scaleY 1 }) := by
  simp [setupAnimation, fadeCfg, orq, orS]

theorem stepEntry_fadeIn (sinq : ℚ → ℚ) (d : ℚ) (X : EntityAttrs) (a : Anim)
    (ht : a.type = "fadeIn") (hdur : a.duration = 1) (hdel : a.delay = 0)
    (heas : a.easing = "linear") (hc : a.completed = false)
    (hnn : 0 ≤ a.elapsed + d) :
    (stepEntry sinq d X a).1 = { X with alpha := min (a.elapsed + d) 1 * a.initialAlpha } ∧
    (stepEntry sinq d X a).2 =
      (if 1 ≤ a.elapsed + d then { a with elapsed := a.elapsed + d, completed := true }
       else { a with elapsed := a.elapsed + d }) := by
  have hnlt : ¬(a.elapsed + d < (0 : ℚ)) := not_lt.mpr hnn
  have hmin : (1 ≤ min (a.elapsed + d) (1 : ℚ)) ↔ 1 ≤ a.elapsed + d := by
    rw [le_min_iff]
    simp
  by_cases hcr : 1 ≤ a.elapsed + d
  · simp [stepEntry, hc, ht, hdur, hdel, heas, hnlt, applyEasing_linear, hmin, hcr]
  · simp [stepEntry, hc, ht, hdur, hdel, heas, hnlt, applyEasing_linear, hmin, hcr]

theorem fade_run_aux (sinq : ℚ → ℚ) (dts : List ℚ) :
    ∀ (X : EntityAttrs) (a : Anim) (s : ℚ),
      (∀ d ∈ dts, 0 ≤ d) →
      a.type = "fadeIn" → a.duration = 1 → a.delay = 0 → a.easing = "linear" →
      a.completed = false → a.elapsed = s → 0 ≤ s → s < 1 →
      X.alpha = min s 1 * a.initialAlpha →
      ((s + dts.sum < 1 →
        (runEntry sinq dts (X, a)).1.alpha = min (s + dts.sum) 1 * a.initialAlpha ∧
        (runEntry sinq dts (X, a)).2.completed = false) ∧
       (1 ≤ s + dts.sum →
        (runEntry sinq dts (X, a)).1.alpha = a.initialAlpha ∧
        (runEntry sinq dts (X, a)).2.completed = true)) := by
  induction dts with
  | nil =>
    intro X a s hpos ht hdur hdel heas hc hel hs0 hs1 hX
    constructor
    · intro _
      refine ⟨?_, hc⟩
      simpa [runEntry] using hX
    · intro hge
      exfalso
      simp only [List.sum_nil, add_zero] at hge
      linarith
  | cons d rest ih =>
    intro X a s hpos ht hdur hdel heas hc hel hs0 hs1 hX
    have hd := hpos d (List.mem_cons_self _ _)
    have hrest : ∀ x ∈ rest, 0 ≤ x := fun x hx => hpos x (List.mem_cons_of_mem _ hx)
    have hnn : 0 ≤ a.elapsed + d := by rw [hel]; linarith
    obtain ⟨hstep1, hstep2⟩ := stepEntry_fadeIn sinq d X a ht hdur hdel heas hc hnn
    have hrun : runEntry sinq (d :: rest) (X, a)
        = runEntry sinq rest (stepEntry sinq d X a) := rfl
    by_cases hcr : 1 ≤ a.elapsed + d
    · have h2 : (stepEntry sinq d X a).2
          = { a with elapsed := a.elapsed + d, completed := true } := by
        rw [hstep2, if_pos hcr]
      have hcompleted : (stepEntry sinq d X a).2.completed = true := by rw [h2]
      have habs : runEntry sinq rest (stepEntry sinq d X a) = stepEntry sinq d X a :=
        runEntry_completed sinq rest _ hcompleted
      have halpha : (stepEntry sinq d X a).1.alpha = a.initialAlpha := by
        rw [hstep1]
        simp [min_eq_right hcr]
      constructor
      · intro hlt
        exfalso
        have hsum : (0 : ℚ) ≤ rest.sum := List.sum_nonneg hrest
        rw [hel] at hcr
        simp only [List.sum_cons] at hlt
        linarith
      · intro _
        rw [hrun, habs]
        exact ⟨halpha, hcompleted⟩
    · have h2 : (stepEntry sinq d X a).2 = { a with elapsed := a.elapsed + d } := by
        rw [hstep2, if_neg hcr]
      have hlt1 : a.elapsed + d < 1 := not_le.mp hcr
      have hrec := ih (stepEntry sinq d X a).1 (stepEntry sinq d X a).2 (s + d) hrest
        (by rw [h2]; simpa using ht)
        (by rw [h2]; simpa using hdur)
        (by rw [h2]; simpa using hdel)
        (by rw [h2]; simpa using heas)
        (by rw [h2]; exact hc)
        (by rw [h2]; simp [hel])
        (by linarith)
        (by rw [hel] at hlt1; exact hlt1)
        (by rw [hstep1, h2]; simp [hel])
      rw [hrun]
      have hinit : (stepEntry sinq d X a).2.initialAlpha = a.initialAlpha := by
        rw [h2]
      constructor
      · intro hlt
        have hlt' : s + d + rest.sum < 1 := by
          simp only [List.sum_cons] at hlt
          linarith
        obtain ⟨hA, hB⟩ := hrec.1 hlt'
        refine ⟨?_, hB⟩
        rw [hA, hinit]
        have : s + (d :: rest).sum = s + d + rest.sum := by
          simp only [List.sum_cons]
          ring
        rw [this]
      · intro hge
        have hge' : 1 ≤ s + d + rest.sum := by
          simp only [List.sum_cons] at hge
          linarith
        obtain ⟨hA, hB⟩ := hrec.2 hge'
        refine ⟨?_, hB⟩
        rw [hA, hinit]

/-- C5: for every entity with a fadeIn animation with duration 1, delay 0,
linear easing and initial opacity 1: at setup the opacity is forced to 0;
ticks summing to 0 leave it at 0; ticks summing to 0.5 leave it at 0.5 with
the animation not completed; once accumulated elapsed reaches 1 the opacity
is 1 and the animation is marked completed; and a completed animation is
skipped verbatim on any later tick (its final value left in place). -/
theorem fadeIn_linear_animation (sinq : ℚ → ℚ) (canvas : CanvasSize)
    (attrs : EntityAttrs) (ref : Entity) (st : CSState) (dts : List ℚ)
    (halpha : attrs.alpha = 1)
    (hnd : (st.entityAnimations.map Prod.fst).Nodup)
    (hmem : lookupAnim st.entityAnimations ref
      = some (setupAnimation canvas attrs fadeCfg ref).2)
    (hheap : st.heap ref = (setupAnimation canvas attrs fadeCfg ref).1)
    (hpos : ∀ d ∈ dts, 0 ≤ d) :
    (setupAnimation canvas attrs fadeCfg ref).1.alpha = 0 ∧
    (dts.sum = 0 → ((animTicks sinq dts st).heap ref).alpha = 0) ∧
    (dts.sum = 1 / 2 →
      ((animTicks sinq dts st).heap ref).alpha = 1 / 2 ∧
      ∃ a', lookupAnim (animTicks sinq dts st).entityAnimations ref = some a' ∧
        a'.completed = false) ∧
    (1 ≤ dts.sum →
      ((animTicks sinq dts st).heap ref).alpha = 1 ∧
      ∃ a', lookupAnim (animTicks sinq dts st).entityAnimations ref = some a' ∧
        a'.completed = true) ∧
    (∀ (dt : ℚ) (Y : EntityAttrs) (b : Anim), b.completed = true →
      stepEntry sinq dt Y b = (Y, b)) := by
  obtain ⟨hpt1, hpt2⟩ := animTicks_pointwise sinq dts st ref _ hnd hmem
  rw [setupAnimation_fadeIn] at hheap
  have hrun := fade_run_aux sinq dts (st.heap ref)
    (setupAnimation canvas attrs fadeCfg ref).2 0 hpos
    (by rw [setupAnimation_fadeIn])
    (by rw [setupAnimation_fadeIn])
    (by rw [setupAnimation_fadeIn])
    (by rw [setupAnimation_fadeIn])
    (by rw [setupAnimation_fadeIn])
    (by rw [setupAnimation_fadeIn])
    le_rfl
    one_pos
    (by rw [hheap, setupAnimation_fadeIn]; simp)
  have hinitA : (setupAnimation canvas attrs fadeCfg ref).2.initialAlpha = attrs.alpha := by
    rw [setupAnimation_fadeIn]
  refine ⟨?_, ?_, ?_, ?_, ?_⟩
  · rw [setupAnimation_fadeIn]
  · intro hsum
    obtain ⟨hA, _⟩ := hrun.1 (by rw [hsum]; norm_num)
    rw [hpt2, hA, hsum, hinitA, halpha]
    norm_num
  · intro hsum
    obtain ⟨hA, hB⟩ := hrun.1 (by rw [hsum]; norm_num)
    refine ⟨?_, ⟨_, hpt1, hB⟩⟩
    rw [hpt2, hA, hsum, hinitA, halpha]
    norm_num
  · intro hsum
    obtain ⟨hA, hB⟩ := hrun.2 (by rw [zero_add]; exact hsum)
    refine ⟨?_, ⟨_, hpt1, hB⟩⟩
    rw [hpt2, hA, hinitA, halpha]
  · intro dt Y b hb
    exact stepEntry_completed sinq dt Y b hb

/-! ### C6: slideIn from the left with duration 1 -/

/-- The animation config of C6's scenario (any easing). -/
def slideCfg (easing : Option String) : AnimConfig :=
  { type := "slideIn", duration := some 1, delay := none, easing := easing,
    direction := some "left" }

theorem setupAnimation_slideIn (canvas : CanvasSize) (attrs : EntityAttrs)
    (easing : Option String) (ref : Entity) :
    setupAnimation canvas attrs (slideCfg easing) ref =
      ({ attrs with x := -attrs.width - 100 },
       { ref := ref, type := "slideIn", duration := 1, delay := 0,
         easing := orS easing "linear", direction := "left", elapsed := 0,
         started := false, completed := false,
         initialAlpha := attrs.alpha, initialX := attrs.x, initialY := attrs.y,
         initialScaleX := orq attrs.scaleX 1, initialScaleY := orq attrs.scaleY 1 }) := by
  simp [setupAnimation, slideCfg, orq, orS, setSlideInStart]

theorem stepEntry_slideIn_cross (sinq : ℚ → ℚ) (d : ℚ) (X : EntityAttrs) (a : Anim)
    (ht : a.type = "slideIn") (hdur : a.duration = 1) (hdel : a.delay = 0)
    (hdir : a.direction = "left") (hc : a.completed = false)
    (hcr : 1 ≤ a.elapsed + d) :
    (stepEntry sinq d X a).1.x = a.initialX ∧
    (stepEntry sinq d X a).2.completed = true := by
  have hnn : (0 : ℚ) ≤ a.elapsed + d := le_trans zero_le_one hcr
  have hnlt : ¬(a.elapsed + d < a.delay) := by rw [hdel]; exact not_lt.mpr hnn
  have hm : min ((a.elapsed + d - a.delay) / a.duration) (1 : ℚ) = 1 := by
    rw [hdel, hdur, sub_zero, div_one]
    exact min_eq_right hcr
  simp only [stepEntry]
  rw [if_neg (by simp [hc]), if_neg hnlt, hm, applyEasing_one]
  have hcond : (1 : ℚ) ≤ 1 ∧ a.type ≠ "pulse" := ⟨le_rfl, by simp [ht]⟩
  refine ⟨?_, ?_⟩
  · rw [if_neg (by simp [ht]), if_neg (by simp [ht]), if_pos ht]
    simp [updateSlideIn, hdir, lerp]
  · rw [if_pos hcond]

theorem stepEntry_slideIn_nocross (sinq : ℚ → ℚ) (d : ℚ) (X : EntityAttrs) (a : Anim)
    (hdur : a.duration = 1) (hdel : a.delay = 0) (hc : a.completed = false)
    (hnn : 0 ≤ a.elapsed + d) (hncr : ¬1 ≤ a.elapsed + d) :
    (stepEntry sinq d X a).2 = { a with elapsed := a.elapsed + d } := by
  have hnlt : ¬(a.elapsed + d < a.delay) := by rw [hdel]; exact not_lt.mpr hnn
  have hmin : ¬(1 ≤ min ((a.elapsed + d - a.delay) / a.duration) (1 : ℚ)) := by
    rw [hdel, hdur, sub_zero, div_one, le_min_iff]
    exact fun hh => hncr hh.1
  have hcond : ¬(1 ≤ min ((a.elapsed + d - a.delay) / a.duration) (1 : ℚ) ∧
      a.type ≠ "pulse") := fun hh => hmin hh.1
  simp only [stepEntry]
  rw [if_neg (by simp [hc]), if_neg hnlt, if_neg hcond]

theorem slide_run_aux (sinq : ℚ → ℚ) (dts : List ℚ) :
    ∀ (X : EntityAttrs) (a : Anim) (s : ℚ),
      (∀ d ∈ dts, 0 ≤ d) →
      a.type = "slideIn" → a.duration = 1 → a.delay = 0 → a.direction = "left" →
      a.completed = false → a.elapsed = s → 0 ≤ s → s < 1 →
      1 ≤ s + dts.sum →
      (runEntry sinq dts (X, a)).1.x = a.initialX ∧
      (runEntry sinq dts (X, a)).2.completed = true := by
  induction dts with
  | nil =>
    intro X a s _ _ _ _ _ _ _ _ hs1 hge
    exfalso
    simp only [List.sum_nil, add_zero] at hge
    linarith
  | cons d rest ih =>
    intro X a s hpos ht hdur hdel hdir hc hel hs0 hs1 hge
    have hd := hpos d (List.mem_cons_self _ _)
    have hrest : ∀ x ∈ rest, 0 ≤ x := fun x hx => hpos x (List.mem_cons_of_mem _ hx)
    have hrun : runEntry sinq (d :: rest) (X, a)
        = runEntry sinq rest (stepEntry sinq d X a) := rfl
    by_cases hcr : 1 ≤ a.elapsed + d
    · obtain ⟨hx, hcm⟩ := stepEntry_slideIn_cross sinq d X a ht hdur hdel hdir hc hcr
      have habs : runEntry sinq rest (stepEntry sinq d X a) = stepEntry sinq d X a :=
        runEntry_completed sinq rest _ hcm
      rw [hrun, habs]
      exact ⟨hx, hcm⟩
    · have hnn : 0 ≤ a.elapsed + d := by rw [hel]; linarith
      have h2 := stepEntry_slideIn_nocross sinq d X a hdur hdel hc hnn hcr
      have hlt1 : a.elapsed + d < 1 := not_le.mp hcr
      have hrec := ih (stepEntry sinq d X a).1 (stepEntry sinq d X a).2 (s + d) hrest
        (by rw [h2]; simpa using ht)
        (by rw [h2]; simpa using hdur)
        (by rw [h2]; simpa using hdel)
        (by rw [h2]; simpa using hdir)
        (by rw [h2]; exact hc)
        (by rw [h2]; simp [hel])
        (by linarith)
        (by rw [hel] at hlt1; exact hlt1)
        (by simp only [List.sum_cons] at hge; linarith)
      have hinit : (stepEntry sinq d X a).2.initialX = a.initialX := by rw [h2]
      rw [hrun]
      exact ⟨hinit ▸ hrec.1, hrec.2⟩

/-- C6: for every entity with a slideIn animation from direction "left" with
duration 1 (any easing, no delay): at setup the entity's x is forced to
`-width - 100`, and once the accumulated elapsed time reaches at least 1 —
however the time was split across ticks — the entity's x equals its
original pre-animation x and the animation is completed (so every later
tick leaves it there). -/
theorem slideIn_left_animation (sinq : ℚ → ℚ) (canvas : CanvasSize)
    (attrs : EntityAttrs) (ref : Entity) (st : CSState) (dts : List ℚ)
    (easing : Option String)
    (hnd : (st.entityAnimations.map Prod.fst).Nodup)
    (hmem : lookupAnim st.entityAnimations ref
      = some (setupAnimation canvas attrs (slideCfg easing) ref).2)
    (_hheap : st.heap ref = (setupAnimation canvas attrs (slideCfg easing) ref).1)
    (hpos : ∀ d ∈ dts, 0 ≤ d) :
    (setupAnimation canvas attrs (slideCfg easing) ref).1.x = -attrs.width - 100 ∧
    (1 ≤ dts.sum →
      ((animTicks sinq dts st).heap ref).x = attrs.x ∧
      ∃ a', lookupAnim (animTicks sinq dts st).entityAnimations ref = some a' ∧
        a'.completed = true) := by
  obtain ⟨hpt1, hpt2⟩ := animTicks_pointwise sinq dts st ref _ hnd hmem
  refine ⟨by rw [setupAnimation_slideIn], ?_⟩
  intro hge
  have hrun := slide_run_aux sinq dts (st.heap ref)
    (setupAnimation canvas attrs (slideCfg easing) ref).2 0 hpos
    (by rw [setupAnimation_slideIn])
    (by rw [setupAnimation_slideIn])
    (by rw [setupAnimation_slideIn])
    (by rw [setupAnimation_slideIn])
    (by rw [setupAnimation_slideIn])
    (by rw [setupAnimation_slideIn])
    le_rfl
    one_pos
    (by rw [zero_add]; exact hge)
  have hinitX : (setupAnimation canvas attrs (slideCfg easing) ref).2.initialX
      = attrs.x := by rw [setupAnimation_slideIn]
  refine ⟨?_, ⟨_, hpt1, hrun.2⟩⟩
  rw [hpt2, hrun.1, hinitX]

/-! ### C8: pulse never completes and modulates scale around the initial -/

theorem stepEntry_pulse_not_completed (sinq : ℚ → ℚ) (d : ℚ) (X : EntityAttrs)
    (a : Anim) (ht : a.type = "pulse") (hc : a.completed = false) :
    (stepEntry sinq d X a).2.completed = false ∧
    (stepEntry sinq d X a).2.type = "pulse" := by
  have hcond : ¬(1 ≤ min ((a.elapsed + d - a.delay) / a.duration) (1 : ℚ) ∧
      a.type ≠ "pulse") := fun hh => hh.2 ht
  simp only [stepEntry]
  rw [if_neg (by simp [hc])]
  by_cases hdl : a.elapsed + d < a.delay
  · rw [if_pos hdl]
    exact ⟨hc, ht⟩
  · rw [if_neg hdl, if_neg hcond]
    exact ⟨hc, ht⟩

theorem pulse_never_completed_aux (sinq : ℚ → ℚ) (dts : List ℚ) :
    ∀ (X : EntityAttrs) (a : Anim), a.type = "pulse" → a.completed = false →
      (runEntry sinq dts (X, a)).2.completed = false := by
  induction dts with
  | nil => intro X a _ hc; exact hc
  | cons d rest ih =>
    intro X a ht hc
    have h := stepEntry_pulse_not_completed sinq d X a ht hc
    have hrun : runEntry sinq (d :: rest) (X, a)
        = runEntry sinq rest (stepEntry sinq d X a) := rfl
    rw [hrun]
    exact ih (stepEntry sinq d X a).1 (stepEntry sinq d X a).2 h.2 h.1

theorem stepEntry_pulse_formula (sinq : ℚ → ℚ) (d : ℚ) (X : EntityAttrs) (a : Anim)
    (ht : a.type = "pulse") (hc : a.completed = false)
    (hdl : a.delay ≤ a.elapsed + d) :
    (stepEntry sinq d X a).1.scaleX
        = some (a.initialScaleX * (1 + (1 / 10) * sinq (4 * (a.elapsed + d - a.delay)))) ∧
    (stepEntry sinq d X a).1.scaleY
        = some (a.initialScaleY * (1 + (1 / 10) * sinq (4 * (a.elapsed + d - a.delay)))) := by
  simp only [stepEntry]
  rw [if_neg (by simp [hc]), if_neg (not_lt.mpr hdl), if_neg (by simp [ht]),
    if_neg (by simp [ht]), if_neg (by simp [ht]), if_neg (by simp [ht]), if_pos ht]
  rw [show (a.elapsed + d - a.delay) * 4 = 4 * (a.elapsed + d - a.delay) from mul_comm _ _]
  exact ⟨congrArg some (by ring), congrArg some (by ring)⟩

/-- C8: for every entity with a pulse animation, no sequence of ticks ever
sets the completed flag, and every tick past the delay sets the entity's
scaleX and scaleY to initialScale × (1 + 0.1 × sin(4 × (elapsed − delay)))
(with the accumulated elapsed including the current tick). -/
theorem pulse_animation (sinq : ℚ → ℚ) (st : CSState) (ref : Entity) (a : Anim)
    (dts : List ℚ) (dt : ℚ)
    (hnd : (st.entityAnimations.map Prod.fst).Nodup)
    (hmem : lookupAnim st.entityAnimations ref = some a)
    (ht : a.type = "pulse") (hc : a.completed = false) :
    (∃ a', lookupAnim (animTicks sinq dts st).entityAnimations ref = some a' ∧
      a'.completed = false) ∧
    (a.delay ≤ a.elapsed + dt →
      ((updateAnimations sinq dt st).heap ref).scaleX
          = some (a.initialScaleX * (1 + (1 / 10) * sinq (4 * (a.elapsed + dt - a.delay)))) ∧
      ((updateAnimations sinq dt st).heap ref).scaleY
          = some (a.initialScaleY * (1 + (1 / 10) * sinq (4 * (a.elapsed + dt - a.delay))))) := by
  constructor
  · obtain ⟨hpt1, _⟩ := animTicks_pointwise sinq dts st ref a hnd hmem
    exact ⟨_, hpt1, pulse_never_completed_aux sinq dts (st.heap ref) a ht hc⟩
  · intro hdl
    obtain ⟨hp1, hp2⟩ := animPass_pointwise sinq dt st.entityAnimations st.heap ref a hnd hmem
    obtain ⟨hf1, hf2⟩ := stepEntry_pulse_formula sinq dt (st.heap ref) a ht hc hdl
    have hheap : (updateAnimations sinq dt st).heap ref
        = (stepEntry sinq dt (st.heap ref) a).1 := hp2
    rw [hheap]
    exact ⟨hf1, hf2⟩

/-! ### Concrete witness inputs for the animation claims -/

/-- A concrete canvas (witness input). -/
def canvasW : CanvasSize := { width := 1080, height := 1920 }

/-- A concrete entity with opacity 1 (witness input). -/
def attrsOpaque : EntityAttrs :=
  { x := 100, y := 200, alpha := 1, width := 50, height := 60
    scaleX := none, scaleY := none, visible := true
    hasCheckClick := false, action := none }

/-- A scene state holding exactly one fadeIn animation on entity 0. -/
def stFade : CSState :=
  { sceneName := "S"
    canvasSize := canvasW
    states := []
    currentStateIndex := 0
    currentStateName := none
    stateTimer := 0
    entities := []
    entityAnimations := [(0, (setupAnimation canvasW attrsOpaque fadeCfg 0).2)]
    heap := fun _ => (setupAnimation canvasW attrsOpaque fadeCfg 0).1
    nextRef := 1
    lm := initLM
    events := [] }

/-- Witness for C5: two quarter-ticks reach opacity 1/2; ticks totalling
5/4 reach opacity 1. -/
theorem fadeIn_linear_witness :
    ((animTicks (fun _ => 0) [1 / 4, 1 / 4] stFade).heap 0).alpha = 1 / 2 ∧
    ((animTicks (fun _ => 0) [1 / 2, 3 / 4] stFade).heap 0).alpha = 1 := by
  constructor
  · exact ((fadeIn_linear_animation (fun _ => 0) canvasW attrsOpaque 0 stFade
      [1 / 4, 1 / 4] rfl (by decide) rfl rfl (by norm_num)).2.2.1 (by norm_num)).1
  · exact ((fadeIn_linear_animation (fun _ => 0) canvasW attrsOpaque 0 stFade
      [1 / 2, 3 / 4] rfl (by decide) rfl rfl (by norm_num)).2.2.2.1 (by norm_num)).1

/-- A scene state holding exactly one slideIn-from-left animation on
entity 0. -/
def stSlide : CSState :=
  { sceneName := "S"
    canvasSize := canvasW
    states := []
    currentStateIndex := 0
    currentStateName := none
    stateTimer := 0
    entities := []
    entityAnimations := [(0, (setupAnimation canvasW attrsOpaque (slideCfg none) 0).2)]
    heap := fun _ => (setupAnimation canvasW attrsOpaque (slideCfg none) 0).1
    nextRef := 1
    lm := initLM
    events := [] }

/-- Witness for C6: the displaced start position, and the return to the
original x after ticks totalling 5/4 ≥ 1. -/
theorem slideIn_left_witness :
    (setupAnimation canvasW attrsOpaque (slideCfg none) 0).1.x
        = -attrsOpaque.width - 100 ∧
    ((animTicks (fun _ => 0) [1 / 2, 3 / 4] stSlide).heap 0).x = attrsOpaque.x := by
  have h := slideIn_left_animation (fun _ => 0) canvasW attrsOpaque 0 stSlide
    [1 / 2, 3 / 4] none (by decide) rfl rfl (by norm_num)
  exact ⟨h.1, (h.2 (by norm_num)).1⟩

/-- A concrete pulse animation record on entity 0. -/
def aPulse : Anim :=
  { ref := 0, type := "pulse", duration := 2, delay := 0, easing := "linear",
    direction := "top", elapsed := 0, started := false, completed := false,
    initialAlpha := 1, initialX := 0, initialY := 0,
    initialScaleX := 1, initialScaleY := 1 }

/-- A scene state holding exactly one pulse animation on entity 0. -/
def stPulse : CSState :=
  { sceneName := "S"
    canvasSize := canvasW
    states := []
    currentStateIndex := 0
    currentStateName := none
    stateTimer := 0
    entities := []
    entityAnimations := [(0, aPulse)]
    heap := fun _ => attrsOpaque
    nextRef := 1
    lm := initLM
    events := [] }

/-- Witness for C8 (with a concrete stand-in for the opaque sine): the
pulse animation is still not completed after three ticks, and one tick of
length 1 sets the scale by the pulse formula. -/
theorem pulse_witness :
    (∃ a', lookupAnim (animTicks (fun q => q) [1, 2, 3] stPulse).entityAnimations 0
        = some a' ∧ a'.completed = false) ∧
    ((updateAnimations (fun q => q) 1 stPulse).heap 0).scaleX
        = some (aPulse.initialScaleX
            * (1 + (1 / 10) * (fun q => q) (4 * (aPulse.elapsed + 1 - aPulse.delay)))) := by
  have h := pulse_animation (fun q => q) stPulse 0 aPulse [1, 2, 3] 1 (by decide) rfl rfl rfl
  exact ⟨h.1, (h.2 (by show (0 : ℚ) ≤ 0 + 1; norm_num)).1⟩

/-! ### C7: easing values and fallback -/

/-- C7: the easing function evaluates easeIn at t = 0.5 to 0.25 and easeOut
at t = 0.5 to 0.75, and for every t and every easing name outside
{linear, easeIn, easeOut, easeInOut} it returns t (falls back to linear). -/
theorem applyEasing_values_and_fallback :
    applyEasing (1 / 2) "easeIn" = 1 / 4 ∧
    applyEasing (1 / 2) "easeOut" = 3 / 4 ∧
    ∀ (t : ℚ) (e : String),
      e ∉ (["linear", "easeIn", "easeOut", "easeInOut"] : List String) →
      applyEasing t e = t := by
  refine ⟨?_, ?_, ?_⟩
  · unfold applyEasing
    rw [if_pos rfl]
    norm_num
  · unfold applyEasing
    rw [if_neg (by decide), if_pos rfl]
    norm_num
  intro t e he
  simp only [List.mem_cons, List.not_mem_nil, or_false, not_or] at he
  obtain ⟨h1, h2, h3, h4⟩ := he
  unfold applyEasing
  rw [if_neg h2, if_neg h3, if_neg h4]

/-- Witness for C7's fallback clause at a concrete unrecognized name. -/
theorem applyEasing_fallback_witness :
    ("bounce" ∉ (["linear", "easeIn", "easeOut", "easeInOut"] : List String)) ∧
    applyEasing 7 "bounce" = 7 :=
  ⟨by decide, applyEasing_values_and_fallback.2.2 7 "bounce" (by decide)⟩


/-! ### C9: switching to an unknown state is a warned no-op -/

theorem findIdx?_none_of_all {α : Type} (p : α → Bool) (l : List α)
    (h : ∀ a ∈ l, p a = false) : l.findIdx? p = none := by
  rw [List.findIdx?_eq_none_iff]
  intro x hx
  simp [h x hx]

/-- C9: requesting a switch to a state name not present in the scene's
state list (the path taken both by a transition's `nextState` and by a
direct request) reports a warning and changes nothing else: the state, the
current index and name, the timer, the tracked entities and animations,
the heap, and the layer contents are all left exactly as they were. -/
theorem switchToState_unknown_noop (st : CSState) (name : String)
    (h : ∀ s ∈ st.states, s.name ≠ name) :
    switchToState name st =
      { st with events := st.events ++ [Event.warn ("State not found: " ++ name)] } := by
  unfold switchToState
  rw [findIdx?_none_of_all _ _ (fun s hs => by simp [h s hs])]

/-- A neutral attribute record (what an unused heap cell holds in the
concrete witness states). -/
def attrsBlank : EntityAttrs :=
  { x := 0, y := 0, alpha := 1, width := 0, height := 0
    scaleX := none, scaleY := none, visible := true
    hasCheckClick := false, action := none }

/-- A concrete scene state with a single state named "A" (witness input). -/
def stOneState : CSState :=
  { sceneName := "S"
    canvasSize := { width := 1080, height := 1920 }
    states := [{ name := "A", clearLayers := true, layers := [], transition := none }]
    currentStateIndex := 0
    currentStateName := some "A"
    stateTimer := 0
    entities := []
    entityAnimations := []
    heap := fun _ => attrsBlank
    nextRef := 0
    lm := initLM
    events := [] }

/-- Witness for C9: switching to the missing name "B" only appends the
warning. -/
theorem switchToState_unknown_witness :
    switchToState "B" stOneState =
      { stOneState with events := [Event.warn ("State not found: " ++ "B")] } :=
  switchToState_unknown_noop stOneState "B" (by decide)

/-! ### C4: timer transitions fire exactly at stateTimer ≥ duration -/

theorem ua_states (sinq : ℚ → ℚ) (dt : ℚ) (s : CSState) :
    (updateAnimations sinq dt s).states = s.states := rfl

theorem ua_index (sinq : ℚ → ℚ) (dt : ℚ) (s : CSState) :
    (updateAnimations sinq dt s).currentStateIndex = s.currentStateIndex := rfl

theorem ua_name (sinq : ℚ → ℚ) (dt : ℚ) (s : CSState) :
    (updateAnimations sinq dt s).currentStateName = s.currentStateName := rfl

theorem ua_timer (sinq : ℚ → ℚ) (dt : ℚ) (s : CSState) :
    (updateAnimations sinq dt s).stateTimer = s.stateTimer := rfl

theorem ua_entities (sinq : ℚ → ℚ) (dt : ℚ) (s : CSState) :
    (updateAnimations sinq dt s).entities = s.entities := rfl

theorem ua_events (sinq : ℚ → ℚ) (dt : ℚ) (s : CSState) :
    (updateAnimations sinq dt s).events = s.events := rfl

theorem stepState_fields (st : CSState) (l : String) (cfg : EntityConfig)
    (attrs : EntityAttrs) :
    (stepState st l cfg attrs).states = st.states ∧
    (stepState st l cfg attrs).currentStateIndex = st.currentStateIndex ∧
    (stepState st l cfg attrs).currentStateName = st.currentStateName ∧
    (stepState st l cfg attrs).stateTimer = st.stateTimer ∧
    (stepState st l cfg attrs).events = st.events ∧
    (stepState st l cfg attrs).nextRef = st.nextRef + 1 ∧
    (stepState st l cfg attrs).entities =
      (if truthyS cfg.id then mapSet st.entities (cfg.id.getD "") st.nextRef
       else st.entities) := by
  rcases h : cfg.animation with _ | ac <;>
    simp [stepState, setupAnimationSt, h]

theorem setupItems_preserved (items : List (String × EntityConfig)) :
    ∀ st : CSState,
      (setupItems st items).1.states = st.states ∧
      (setupItems st items).1.currentStateIndex = st.currentStateIndex ∧
      (setupItems st items).1.currentStateName = st.currentStateName ∧
      (setupItems st items).1.stateTimer = st.stateTimer := by
  induction items with
  | nil => intro st; exact ⟨rfl, rfl, rfl, rfl⟩
  | cons item rest ih =>
    intro st
    obtain ⟨layerName, cfg⟩ := item
    rcases hce : createEntity cfg with _ | attrs
    · simp only [setupItems, hce]
      exact ih { st with
        events := st.events ++ [Event.warn ("Unknown entity type: " ++ cfg.type)] }
    · simp only [setupItems, hce]
      obtain ⟨h1, h2, h3, h4, _, _, _⟩ := stepState_fields st layerName cfg attrs
      have hi := ih (stepState st layerName cfg attrs)
      exact ⟨hi.1.trans h1, hi.2.1.trans h2, hi.2.2.1.trans h3, hi.2.2.2.trans h4⟩

theorem setupState_preserved (st : CSState) (sc : StateCfg) :
    (setupState st sc).1.states = st.states ∧
    (setupState st sc).1.currentStateIndex = st.currentStateIndex ∧
    (setupState st sc).1.currentStateName = st.currentStateName ∧
    (setupState st sc).1.stateTimer = st.stateTimer := by
  unfold setupState
  by_cases hcl : sc.clearLayers <;> simp only [hcl, if_true, if_false] <;>
    exact ⟨(setupItems_preserved _ _).1, (setupItems_preserved _ _).2.1,
      (setupItems_preserved _ _).2.2.1, (setupItems_preserved _ _).2.2.2⟩

theorem switchToState_found (name : String) (st : CSState) (j : Nat) (scj : StateCfg)
    (hfind : st.states.findIdx? (fun s => s.name == name) = some j)
    (hget : st.states.get? j = some scj) :
    (switchToState name st).currentStateIndex = j ∧
    (switchToState name st).currentStateName = some name ∧
    (switchToState name st).stateTimer = 0 ∧
    (switchToState name st).states = st.states := by
  have hget' : ({ st with
      currentStateIndex := j
      currentStateName := some name
      stateTimer := 0 } : CSState).states.get? j = some scj := hget
  unfold switchToState
  simp only [hfind, hget']
  obtain ⟨h1, h2, h3, h4⟩ := setupState_preserved
    { st with currentStateIndex := j, currentStateName := some name, stateTimer := 0 } scj
  exact ⟨by rw [h2], by rw [h3], by rw [h4], by rw [h1]⟩

/-- C4: for an active state declaring a timer transition with duration `d`
naming an existing next state, `update` with an unpressed pointer performs
the transition exactly when the incremented state timer reaches `d`: if
`stateTimer + dt < d` nothing transitions (the timer just accumulates), and
if `stateTimer + dt ≥ d` the scene switches to the named state with the
timer reset to 0. -/
theorem update_timer_transition (sinq : ℚ → ℚ) (dt px py : ℚ) (st : CSState)
    (cs : StateCfg) (d : ℚ) (n : String) (j : Nat) (scj : StateCfg)
    (hget : st.states.get? st.currentStateIndex = some cs)
    (htr : cs.transition
      = some { type := "timer", duration := d, nextState := some n, nextScene := none })
    (hn : n ≠ "")
    (hfind : st.states.findIdx? (fun s => s.name == n) = some j)
    (hgetj : st.states.get? j = some scj) :
    (st.stateTimer + dt < d →
      (update sinq dt ⟨px, py, false⟩ st).currentStateIndex = st.currentStateIndex ∧
      (update sinq dt ⟨px, py, false⟩ st).currentStateName = st.currentStateName ∧
      (update sinq dt ⟨px, py, false⟩ st).stateTimer = st.stateTimer + dt) ∧
    (d ≤ st.stateTimer + dt →
      (update sinq dt ⟨px, py, false⟩ st).currentStateIndex = j ∧
      (update sinq dt ⟨px, py, false⟩ st).currentStateName = some n ∧
      (update sinq dt ⟨px, py, false⟩ st).stateTimer = 0) := by
  have hne : st.states.isEmpty = false := by
    cases hs : st.states with
    | nil => rw [hs] at hget; simp at hget
    | cons a l => rfl
  have hchar : update sinq dt ⟨px, py, false⟩ st =
      (if d ≤ st.stateTimer + dt
       then handleTransition ⟨"timer", d, some n, none⟩
              (updateAnimations sinq dt { st with stateTimer := st.stateTimer + dt })
       else updateAnimations sinq dt { st with stateTimer := st.stateTimer + dt }) := by
    unfold update
    simp only [hne, Bool.false_eq_true, if_false, hget, htr, ua_timer]
    rw [if_pos (show ("timer" == "timer") = true from rfl)]
  constructor
  · intro hlt
    rw [hchar, if_neg (not_le.mpr hlt)]
    exact ⟨rfl, rfl, rfl⟩
  · intro hge
    rw [hchar, if_pos hge]
    have htr1 : handleTransition ⟨"timer", d, some n, none⟩
        (updateAnimations sinq dt { st with stateTimer := st.stateTimer + dt })
        = switchToState n
            (updateAnimations sinq dt { st with stateTimer := st.stateTimer + dt }) := by
      unfold handleTransition
      simp [truthyS, hn]
    rw [htr1]
    obtain ⟨h1, h2, h3, _⟩ := switchToState_found n
      (updateAnimations sinq dt { st with stateTimer := st.stateTimer + dt }) j scj
      (by show st.states.findIdx? (fun s => s.name == n) = some j; exact hfind)
      (by show st.states.get? j = some scj; exact hgetj)
    exact ⟨h1, h2, h3⟩

/-- A concrete scene with states "A" (timer transition, duration 2, next
state "B") and "B" (witness input). -/
def stTimer : CSState :=
  { sceneName := "S"
    canvasSize := canvasW
    states :=
      [{ name := "A", clearLayers := false, layers := [],
         transition := some ⟨"timer", 2, some "B", none⟩ },
       { name := "B", clearLayers := false, layers := [], transition := none }]
    currentStateIndex := 0
    currentStateName := some "A"
    stateTimer := 0
    entities := []
    entityAnimations := []
    heap := fun _ => attrsBlank
    nextRef := 0
    lm := initLM
    events := [] }

/-- Witness for C4: with duration 2, a tick reaching stateTimer 1.9 does
not transition; a tick reaching stateTimer 2.0 transitions to "B" and
resets the timer. -/
theorem update_timer_witness :
    (update (fun _ => 0) (19 / 10) ⟨0, 0, false⟩ stTimer).currentStateName = some "A" ∧
    (update (fun _ => 0) (19 / 10) ⟨0, 0, false⟩ stTimer).stateTimer = 19 / 10 ∧
    (update (fun _ => 0) 2 ⟨0, 0, false⟩ stTimer).currentStateName = some "B" ∧
    (update (fun _ => 0) 2 ⟨0, 0, false⟩ stTimer).stateTimer = 0 := by
  have hA := (update_timer_transition (fun _ => 0) (19 / 10) 0 0 stTimer
    _ 2 "B" 1 _ rfl rfl (by decide) (by decide) rfl).1
    (by show (0 : ℚ) + 19 / 10 < 2; norm_num)
  have hB := (update_timer_transition (fun _ => 0) 2 0 0 stTimer
    _ 2 "B" 1 _ rfl rfl (by decide) (by decide) rfl).2
    (by show (2 : ℚ) ≤ 0 + 2; norm_num)
  refine ⟨hA.2.1, ?_, hB.2.1, hB.2.2⟩
  rw [hA.2.2]
  show (0 : ℚ) + 19 / 10 = 19 / 10
  norm_num

/-! ### C10: entities without an id are never click-tested -/

/-- An event that is not the invocation of any entity's click test. -/
def NotClickTest (ev : Event) : Prop := ∀ e : Entity, ev ≠ Event.clickTest e

theorem setupItems_events (items : List (String × EntityConfig)) :
    ∀ (st : CSState), ∀ ev ∈ (setupItems st items).1.events,
      ev ∈ st.events ∨ ∃ m, ev = Event.warn m := by
  induction items with
  | nil => intro st ev hev; exact Or.inl hev
  | cons item rest ih =>
    intro st ev hev
    obtain ⟨layerName, cfg⟩ := item
    rcases hce : createEntity cfg with _ | attrs
    · simp only [setupItems, hce] at hev
      rcases ih _ ev hev with h | h
      · rcases List.mem_append.mp h with h' | h'
        · exact Or.inl h'
        · simp only [List.mem_singleton] at h'
          exact Or.inr ⟨_, h'⟩
      · exact Or.inr h
    · simp only [setupItems, hce] at hev
      have h := ih (stepState st layerName cfg attrs) ev hev
      rcases h with h | h
      · rw [(stepState_fields st layerName cfg attrs).2.2.2.2.1] at h
        exact Or.inl h
      · exact Or.inr h

theorem setupState_events (st : CSState) (sc : StateCfg) :
    ∀ ev ∈ (setupState st sc).1.events, ev ∈ st.events ∨ ∃ m, ev = Event.warn m := by
  intro ev hev
  unfold setupState at hev
  by_cases hcl : sc.clearLayers = true
  · rw [if_pos hcl] at hev
    have h := setupItems_events _ _ ev hev
    exact h
  · rw [if_neg hcl] at hev
    have h := setupItems_events _ _ ev hev
    exact h

theorem switchToState_events (n : String) (st : CSState) :
    ∀ ev ∈ (switchToState n st).events, ev ∈ st.events ∨ ∃ m, ev = Event.warn m := by
  intro ev hev
  unfold switchToState at hev
  rcases hf : st.states.findIdx? (fun s => s.name == n) with _ | i
  · simp only [hf] at hev
    rcases List.mem_append.mp hev with h | h
    · exact Or.inl h
    · simp only [List.mem_singleton] at h
      exact Or.inr ⟨_, h⟩
  · simp only [hf] at hev
    rcases hg : ({ st with
        currentStateIndex := i
        currentStateName := some n
        stateTimer := 0 } : CSState).states.get? i with _ | sc
    · simp only [hg] at hev
      exact Or.inl hev
    · simp only [hg] at hev
      have h := setupState_events _ _ ev hev
      exact h

theorem handleButtonAction_events (a : ActionConfig) (st : CSState) :
    ∀ ev ∈ (handleButtonAction a st).events, ev ∈ st.events ∨ NotClickTest ev := by
  intro ev hev
  unfold handleButtonAction at hev
  split_ifs at hev with h1 h2 h3 h4 h5 h6 h7 <;>
    first
    | exact Or.inl hev
    | (rcases List.mem_append.mp hev with h | h
       · exact Or.inl h
       · simp only [List.mem_singleton] at h
         subst h
         exact Or.inr (fun e hne => Event.noConfusion hne))
    | (rcases switchToState_events _ _ ev hev with h | h
       · exact Or.inl h
       · obtain ⟨m, rfl⟩ := h
         exact Or.inr (fun e hne => Event.noConfusion hne))

theorem handleTransition_events (tr : TransitionCfg) (st : CSState) :
    ∀ ev ∈ (handleTransition tr st).events, ev ∈ st.events ∨ NotClickTest ev := by
  intro ev hev
  unfold handleTransition at hev
  split_ifs at hev with h1 h2
  · rcases List.mem_append.mp hev with h | h
    · exact Or.inl h
    · simp only [List.mem_singleton] at h
      subst h
      exact Or.inr (fun e hne => Event.noConfusion hne)
  · rcases switchToState_events _ _ ev hev with h | h
    · exact Or.inl h
    · obtain ⟨m, rfl⟩ := h
      exact Or.inr (fun e hne => Event.noConfusion hne)
  · exact Or.inl hev

theorem clicksPass_events (px py : ℚ) :
    ∀ (entries : List (String × Entity)) (st : CSState),
      ∀ ev ∈ (clicksPass px py st entries).events,
        ev ∈ st.events ∨ (∃ e, ev = Event.clickTest e ∧ e ∈ entries.map Prod.snd) ∨
        NotClickTest ev := by
  intro entries
  induction entries with
  | nil => intro st ev hev; exact Or.inl hev
  | cons entry rest ih =>
    intro st ev hev
    obtain ⟨id, e⟩ := entry
    simp only [clicksPass] at hev
    have hstep : ∀ ev', ev' ∈
        (if (st.heap e).hasCheckClick then
          (if checkClickHit (st.heap e) px py then
            match (st.heap e).action with
            | some a =>
              handleButtonAction a { st with events := st.events ++ [Event.clickTest e] }
            | none => { st with events := st.events ++ [Event.clickTest e] }
          else { st with events := st.events ++ [Event.clickTest e] })
        else st).events →
        ev' ∈ st.events ∨ ev' = Event.clickTest e ∨ NotClickTest ev' := by
      intro ev' hev'
      have hbase : ∀ ev'', ev'' ∈ (st.events ++ [Event.clickTest e]) →
          ev'' ∈ st.events ∨ ev'' = Event.clickTest e ∨ NotClickTest ev'' := by
        intro ev'' hev''
        rcases List.mem_append.mp hev'' with h | h
        · exact Or.inl h
        · simp only [List.mem_singleton] at h
          exact Or.inr (Or.inl h)
      by_cases hcc : (st.heap e).hasCheckClick = true
      · rw [if_pos hcc] at hev'
        by_cases hhit : checkClickHit (st.heap e) px py = true
        · rw [if_pos hhit] at hev'
          rcases hact : (st.heap e).action with _ | a
          · simp only [hact] at hev'
            exact hbase ev' hev'
          · simp only [hact] at hev'
            rcases handleButtonAction_events a _ ev' hev' with h | h
            · exact hbase ev' h
            · exact Or.inr (Or.inr h)
        · rw [if_neg hhit] at hev'
          exact hbase ev' hev'
      · rw [if_neg hcc] at hev'
        exact Or.inl hev'
    rcases ih _ ev hev with h | h | h
    · rcases hstep ev h with h' | h' | h'
      · exact Or.inl h'
      · exact Or.inr (Or.inl ⟨e, h', by simp⟩)
      · exact Or.inr (Or.inr h')
    · obtain ⟨e', he', hmem'⟩ := h
      exact Or.inr (Or.inl ⟨e', he', by simp [hmem']⟩)
    · exact Or.inr (Or.inr h)

theorem transitionPart_events (cs : StateCfg) (ST : CSState) :
    ∀ ev ∈ (match cs.transition with
      | some tr =>
        if tr.type == "timer" then
          if tr.duration ≤ ST.stateTimer then handleTransition tr ST else ST
        else ST
      | none => ST).events,
      ev ∈ ST.events ∨ NotClickTest ev := by
  intro ev hev
  rcases htr : cs.transition with _ | tr
  · simp only [htr] at hev
    exact Or.inl hev
  · simp only [htr] at hev
    split at hev
    · split at hev
      · exact handleTransition_events tr ST ev hev
      · exact Or.inl hev
    · exact Or.inl hev

theorem update_events (sinq : ℚ → ℚ) (dt : ℚ) (m : MouseState) (st : CSState) :
    ∀ ev ∈ (update sinq dt m st).events,
      ev ∈ st.events ∨ (∃ e, ev = Event.clickTest e ∧ e ∈ st.entities.map Prod.snd) ∨
      NotClickTest ev := by
  intro ev hev
  have hP3 : ∀ ev', ev' ∈
      (if m.pressed then
        handleButtonClicks m.x m.y
          (updateAnimations sinq dt { st with stateTimer := st.stateTimer + dt })
      else updateAnimations sinq dt { st with stateTimer := st.stateTimer + dt }).events →
      ev' ∈ st.events ∨ (∃ e, ev' = Event.clickTest e ∧ e ∈ st.entities.map Prod.snd) ∨
      NotClickTest ev' := by
    intro ev' hev'
    by_cases hpr : m.pressed = true
    · rw [if_pos hpr] at hev'
      exact clicksPass_events m.x m.y
        (updateAnimations sinq dt { st with stateTimer := st.stateTimer + dt }).entities
        (updateAnimations sinq dt { st with stateTimer := st.stateTimer + dt }) ev' hev'
    · rw [if_neg hpr] at hev'
      exact Or.inl hev'
  unfold update at hev
  by_cases hempty : st.states.isEmpty = true
  · rw [if_pos hempty] at hev
    exact Or.inl hev
  · rw [if_neg hempty] at hev
    rcases hg : st.states.get? st.currentStateIndex with _ | cs
    · simp only [hg] at hev
      exact Or.inl hev
    · simp only [hg] at hev
      have hmain := transitionPart_events cs
        (if m.pressed then
          handleButtonClicks m.x m.y
            (updateAnimations sinq dt { st with stateTimer := st.stateTimer + dt })
        else updateAnimations sinq dt { st with stateTimer := st.stateTimer + dt }) ev hev
      rcases hmain with h | h
      · exact hP3 ev h
      · exact Or.inr (Or.inr h)

theorem mapSet_values (m : List (String × Entity)) (k : String) (v : Entity) :
    ∀ p ∈ mapSet m k v, p.2 = v ∨ ∃ q ∈ m, p.2 = q.2 := by
  intro p hp
  unfold mapSet at hp
  split at hp
  · rcases List.mem_map.mp hp with ⟨q, hq, hqe⟩
    by_cases hk : (q.1 == k) = true
    · rw [if_pos hk] at hqe
      rw [← hqe]
      exact Or.inl rfl
    · rw [if_neg hk] at hqe
      exact Or.inr ⟨q, hq, by rw [hqe]⟩
  · rcases List.mem_append.mp hp with h | h
    · exact Or.inr ⟨p, h, rfl⟩
    · simp only [List.mem_singleton] at h
      rw [h]
      exact Or.inl rfl

theorem stepState_wf (st : CSState) (l : String) (cfg : EntityConfig)
    (attrs : EntityAttrs) (hwf : ∀ p ∈ st.entities, p.2 < st.nextRef) :
    ∀ p ∈ (stepState st l cfg attrs).entities, p.2 < (stepState st l cfg attrs).nextRef := by
  obtain ⟨_, _, _, _, _, hnr, hent⟩ := stepState_fields st l cfg attrs
  rw [hent, hnr]
  intro p hp
  by_cases hid : truthyS cfg.id = true
  · rw [if_pos hid] at hp
    rcases mapSet_values st.entities (cfg.id.getD "") st.nextRef p hp with h | ⟨q, hq, hqe⟩
    · rw [h]; exact Nat.lt_succ_self _
    · rw [hqe]; exact Nat.lt_succ_of_lt (hwf q hq)
  · rw [if_neg hid] at hp
    exact Nat.lt_succ_of_lt (hwf p hp)

theorem stepState_avoid (st : CSState) (l : String) (cfg : EntityConfig)
    (attrs : EntityAttrs) (e : Entity) (he : e < st.nextRef)
    (havoid : ∀ p ∈ st.entities, p.2 ≠ e) :
    ∀ p ∈ (stepState st l cfg attrs).entities, p.2 ≠ e := by
  obtain ⟨_, _, _, _, _, _, hent⟩ := stepState_fields st l cfg attrs
  rw [hent]
  intro p hp
  by_cases hid : truthyS cfg.id = true
  · rw [if_pos hid] at hp
    rcases mapSet_values st.entities (cfg.id.getD "") st.nextRef p hp with h | ⟨q, hq, hqe⟩
    · rw [h]; exact fun hh => absurd (hh ▸ he) (lt_irrefl _)
    · rw [hqe]; exact havoid q hq
  · rw [if_neg hid] at hp
    exact havoid p hp

theorem stepState_entities_noId (st : CSState) (l : String) (cfg : EntityConfig)
    (attrs : EntityAttrs) (hid : truthyS cfg.id = false) :
    (stepState st l cfg attrs).entities = st.entities := by
  obtain ⟨_, _, _, _, _, _, hent⟩ := stepState_fields st l cfg attrs
  rw [hent, hid]
  simp

theorem setupItems_fresh (items : List (String × EntityConfig)) :
    ∀ st : CSState,
      (∀ p ∈ st.entities, p.2 < st.nextRef) →
      (∀ p ∈ (setupItems st items).1.entities, p.2 < (setupItems st items).1.nextRef) ∧
      st.nextRef ≤ (setupItems st items).1.nextRef := by
  induction items with
  | nil => intro st hwf; exact ⟨hwf, le_rfl⟩
  | cons item rest ih =>
    intro st hwf
    obtain ⟨layerName, cfg⟩ := item
    rcases hce : createEntity cfg with _ | attrs
    · simp only [setupItems, hce]
      exact ih { st with
        events := st.events ++ [Event.warn ("Unknown entity type: " ++ cfg.type)] }
        (fun p hp => hwf p hp)
    · simp only [setupItems, hce]
      have hi := ih (stepState st layerName cfg attrs)
        (stepState_wf st layerName cfg attrs hwf)
      refine ⟨hi.1, ?_⟩
      calc st.nextRef ≤ st.nextRef + 1 := Nat.le_succ _
        _ = (stepState st layerName cfg attrs).nextRef :=
            ((stepState_fields st layerName cfg attrs).2.2.2.2.2.1).symm
        _ ≤ _ := hi.2

theorem setupItems_avoid (items : List (String × EntityConfig)) :
    ∀ (st : CSState) (e : Entity),
      (∀ p ∈ st.entities, p.2 < st.nextRef) →
      e < st.nextRef →
      (∀ p ∈ st.entities, p.2 ≠ e) →
      ∀ p ∈ (setupItems st items).1.entities, p.2 ≠ e := by
  induction items with
  | nil => intro st e _ _ havoid; exact havoid
  | cons item rest ih =>
    intro st e hwf he havoid
    obtain ⟨layerName, cfg⟩ := item
    rcases hce : createEntity cfg with _ | attrs
    · simp only [setupItems, hce]
      exact ih { st with
        events := st.events ++ [Event.warn ("Unknown entity type: " ++ cfg.type)] }
        e (fun q hq => hwf q hq) he (fun q hq => havoid q hq)
    · simp only [setupItems, hce]
      exact ih (stepState st layerName cfg attrs) e
        (stepState_wf st layerName cfg attrs hwf)
        (by rw [(stepState_fields st layerName cfg attrs).2.2.2.2.2.1]
            exact Nat.lt_succ_of_lt he)
        (stepState_avoid st layerName cfg attrs e he havoid)

theorem setupItems_noId (items : List (String × EntityConfig)) :
    ∀ (st : CSState) (e : Entity) (cfg : EntityConfig),
      (∀ p ∈ st.entities, p.2 < st.nextRef) →
      (e, cfg) ∈ (setupItems st items).2 →
      truthyS cfg.id = false →
      ∀ p ∈ (setupItems st items).1.entities, p.2 ≠ e := by
  induction items with
  | nil => intro st e cfg _ hcr; simp [setupItems] at hcr
  | cons item rest ih =>
    intro st e cfg hwf hcr hid
    obtain ⟨layerName, cfg0⟩ := item
    rcases hce : createEntity cfg0 with _ | attrs
    · simp only [setupItems, hce] at hcr ⊢
      exact ih { st with
        events := st.events ++ [Event.warn ("Unknown entity type: " ++ cfg0.type)] }
        e cfg (fun q hq => hwf q hq) hcr hid
    · simp only [setupItems, hce] at hcr ⊢
      rcases List.mem_cons.mp hcr with heq | htail
      · have he : e = st.nextRef := congrArg Prod.fst heq
        have hcfg : cfg = cfg0 := congrArg Prod.snd heq
        subst hcfg
        subst he
        apply setupItems_avoid rest (stepState st layerName cfg attrs) st.nextRef
          (stepState_wf st layerName cfg attrs hwf)
          (by rw [(stepState_fields st layerName cfg attrs).2.2.2.2.2.1]
              exact Nat.lt_succ_self _)
        rw [stepState_entities_noId st layerName cfg attrs hid]
        intro p hp
        exact fun hh => absurd (hh ▸ hwf p hp) (lt_irrefl _)
      · exact ih (stepState st layerName cfg0 attrs) e cfg
          (stepState_wf st layerName cfg0 attrs hwf) htail hid

theorem setupState_noId (st : CSState) (sc : StateCfg) (e : Entity) (cfg : EntityConfig)
    (hwf : ∀ p ∈ st.entities, p.2 < st.nextRef)
    (hcr : (e, cfg) ∈ (setupState st sc).2)
    (hid : truthyS cfg.id = false) :
    ∀ p ∈ (setupState st sc).1.entities, p.2 ≠ e := by
  unfold setupState at hcr ⊢
  by_cases hcl : sc.clearLayers = true
  · rw [if_pos hcl] at hcr ⊢
    exact setupItems_noId _ _ e cfg (fun p hp => absurd hp (List.not_mem_nil p)) hcr hid
  · rw [if_neg hcl] at hcr ⊢
    exact setupItems_noId _ _ e cfg (fun p hp => hwf p hp) hcr hid

/-- C10: click dispatch tests only entities recorded in the id-keyed
tracking map: an entity constructed during state setup from a config that
declares a click capability but no id is never put in the map, so `update`
never invokes its click test for any pointer press — its action can never
be dispatched. -/
theorem noId_entity_never_clicktested (st : CSState) (sc : StateCfg)
    (e : Entity) (cfg : EntityConfig)
    (hwf : ∀ p ∈ st.entities, p.2 < st.nextRef)
    (hcr : (e, cfg) ∈ (setupState st sc).2)
    (hid : cfg.id = none)
    (_hclick : cfg.onClick.isSome = true)
    (hev : Event.clickTest e ∉ st.events) :
    (∀ p ∈ (setupState st sc).1.entities, p.2 ≠ e) ∧
    (∀ (sinq : ℚ → ℚ) (dt px py : ℚ),
      Event.clickTest e ∉ (update sinq dt ⟨px, py, true⟩ (setupState st sc).1).events) := by
  have hidf : truthyS cfg.id = false := by rw [hid]; rfl
  have h1 := setupState_noId st sc e cfg hwf hcr hidf
  refine ⟨h1, ?_⟩
  intro sinq dt px py hmem
  rcases update_events sinq dt ⟨px, py, true⟩ _ _ hmem with h | h | h
  · rcases setupState_events st sc _ h with h' | h'
    · exact hev h'
    · obtain ⟨m, hm⟩ := h'
      exact Event.noConfusion hm
  · obtain ⟨e', he', hmem'⟩ := h
    obtain rfl : e' = e := by injection he' with h'; exact h'.symm
    rcases List.mem_map.mp hmem' with ⟨p, hp, hpe⟩
    exact h1 p hp hpe
  · exact h e rfl

/-- A button config declaring a click action but no id (witness input). -/
def btnCfgNoId : EntityConfig :=
  { type := "button", id := none, x := none, y := none, width := none, height := none
    alpha := none, scaleX := none, scaleY := none, visible := none
    onClick := some { action := "switchState", target := some "A", sound := none }
    animation := none }

/-- A state placing that button on the UI layer (witness input). -/
def scButton : StateCfg :=
  { name := "A", clearLayers := true, layers := [("UI_BUTTONS", [btnCfgNoId])],
    transition := none }

/-- Witness for C10: the id-less button built as entity 0 is never
click-tested by a pressed-pointer update. -/
theorem noId_never_clicktested_witness :
    (0, btnCfgNoId) ∈ (setupState stOneState scButton).2 ∧
    (∀ p ∈ (setupState stOneState scButton).1.entities, p.2 ≠ 0) ∧
    Event.clickTest 0 ∉
      (update (fun _ => 0) 1 ⟨15, 15, true⟩ (setupState stOneState scButton).1).events := by
  have h := noId_entity_never_clicktested stOneState scButton 0 btnCfgNoId
    (fun p hp => absurd hp (List.not_mem_nil p)) (by decide) rfl rfl
    (List.not_mem_nil _)
  exact ⟨by decide, h.1, h.2 (fun _ => 0) 1 15 15⟩

end ConfigurableScene

end CapVerify
